import Mathlib

/-!
# Configuration merge and assembly of the consul agent

A shallow embedding of `agent/config/merge.go` (`Merge`), of
`agent/config/config.go` (`NewConfig`) and of `stringMapValue.Set` of
`agent/config/flagset.go`, followed by theorems about them.

Modelling conventions

* A Go pointer field (`*bool`, `*string`, `*int`) is an `Option`: `none` is the
  nil pointer, `some v` a pointer to `v`.
* A Go `[]string` is an `Option (List String)`: `none` is the nil slice and
  `some l` a non-nil slice with elements `l` (so `some []` is the empty,
  non-nil slice).
* A Go `map[string]string` is an `Option (List (String × String))`: `none` is
  the nil map, `some kvs` a map whose entries are `kvs` (keys pairwise
  distinct).
* Go `int` and `time.Duration` are `Int`; the code does no arithmetic on them.
* A Go `error` is an `Option GoError` (`none` is the nil error).
* A Go panic is the `error` side of `Except Panic`.
* `time.ParseDuration` belongs to the Go standard library; it is a parameter
  of the model, `ParseDuration : String → Except String Int`, giving either the
  duration or the message of the error (Go returns the duration 0 with it).
-/

namespace Consul

/-! ## Data model (`config.go`) -/

/-- Go `[]string`; `none` is the nil slice. -/
abbrev StringSlice := Option (List String)

/-- Go `map[string]string`; `none` is the nil map. -/
abbrev StringMap := Option (List (String × String))

/-- The elements of a slice, in order (what `range` iterates over). -/
def elems : StringSlice → List String
  | none => []
  | some l => l

/-- Go builtin `len` on a map. -/
def mapLen : StringMap → Nat
  | none => 0
  | some kvs => kvs.length

/-- Go builtin `append(s, x)` with one element. -/
def appendOne (s : StringSlice) (x : String) : StringSlice :=
  some (elems s ++ [x])

/-- Type `FilePorts` of `config.go`. -/
structure FilePorts where
  DNS : Option Int
  deriving DecidableEq, Repr

/-- Type `File` of `config.go`: the format of a config file. -/
structure File where
  Bootstrap : Option Bool
  CheckUpdateInterval : Option String
  Datacenter : Option String
  BindAddr : Option String
  JoinAddrsLAN : StringSlice
  NodeMeta : StringMap
  Ports : FilePorts
  deriving DecidableEq, Repr

/-- Type `Config` of `config.go`: the runtime configuration. -/
structure Config where
  Bootstrap : Bool
  CheckUpdateInterval : Int
  Datacenter : String
  BindAddrs : StringSlice
  JoinAddrsLAN : StringSlice
  DNSPort : Int
  DNSAddrsTCP : StringSlice
  DNSAddrsUDP : StringSlice
  NodeMeta : StringMap
  deriving DecidableEq, Repr

/-- The Go zero value `FilePorts{}`. -/
def FilePorts.zero : FilePorts := ⟨none⟩

/-- The Go zero value `File{}` (`var f File`). -/
def File.zero : File :=
  ⟨none, none, none, none, none, none, FilePorts.zero⟩

/-- The Go zero value `Config{}`. -/
def Config.zero : Config :=
  ⟨false, 0, "", none, none, 0, none, none, none⟩

/-- The errors `NewConfig` can return. -/
inductive GoError where
  /-- The error returned by `time.ParseDuration`, with its message. -/
  | parseDuration (msg : String)
  /-- The value of `fmt.Errorf("no bind address specified")`. -/
  | noBindAddress
  deriving DecidableEq, Repr

/-- Method `Error()` of a Go error: its message. -/
def GoError.Error : GoError → String
  | .parseDuration msg => msg
  | .noBindAddress => "no bind address specified"

/-! ## The part of package `reflect` that `Merge` uses -/

/-- The Go types a `reflect.Value` of the model can have. -/
inductive Typ where
  | ptrBool
  | ptrString
  | ptrInt
  | sliceString
  | mapStringString
  | bool
  | string
  | int
  deriving DecidableEq, Repr

/-- Type `reflect.Kind`, restricted to the kinds of `Typ`. -/
inductive Kind where
  | Ptr
  | Slice
  | Map
  | Bool
  | String
  | Int
  deriving DecidableEq, Repr

/-- Method `reflect.Type.Kind`. -/
def Typ.Kind : Typ → Kind
  | .ptrBool => .Ptr
  | .ptrString => .Ptr
  | .ptrInt => .Ptr
  | .sliceString => .Slice
  | .mapStringString => .Map
  | .bool => .Bool
  | .string => .String
  | .int => .Int

/-- A valid `reflect.Value` (equally, a non-nil `interface{}`): a Go value
together with its dynamic type. -/
inductive Value where
  | ptrBool (p : Option Bool)
  | ptrString (p : Option String)
  | ptrInt (p : Option Int)
  | sliceString (s : StringSlice)
  | mapStringString (m : StringMap)
  | bool (b : Bool)
  | string (s : String)
  | int (n : Int)
  deriving DecidableEq, Repr

/-- Function `reflect.TypeOf` / method `reflect.Value.Type`. -/
def Value.Type : Value → Typ
  | .ptrBool _ => .ptrBool
  | .ptrString _ => .ptrString
  | .ptrInt _ => .ptrInt
  | .sliceString _ => .sliceString
  | .mapStringString _ => .mapStringString
  | .bool _ => .bool
  | .string _ => .string
  | .int _ => .int

/-- The ways `Merge` can abort. -/
inductive Panic where
  /-- `panic(fmt.Sprintf("out type %v != value type %v", outTyp, xTyp))`. -/
  | typeMismatch (outTyp xTyp : Typ)
  /-- `panic(fmt.Sprintf("unsupported element type: %v", outTyp))`. -/
  | unsupported (outTyp : Typ)
  /-- A panic raised by a method of package `reflect` called on a value of
  the wrong kind or type. -/
  | reflect (method : String)
  /-- A run-time panic of Go itself, such as an assignment to an entry of a
  nil map. -/
  | runtime (msg : String)
  deriving DecidableEq, Repr

/-- Method `reflect.Value.Len`: defined on maps, slices and strings, panics on
the other kinds. -/
def Value.Len : Value → Except Panic Nat
  | .mapStringString m => .ok (mapLen m)
  | .sliceString s => .ok (elems s).length
  | .string s => .ok s.utf8ByteSize
  | _ => .error (.reflect "Len")

/-- Method `reflect.Value.IsNil`: defined on pointers, maps and slices, panics
on the other kinds. -/
def Value.IsNil : Value → Except Panic Bool
  | .ptrBool p => .ok p.isNone
  | .ptrString p => .ok p.isNone
  | .ptrInt p => .ok p.isNone
  | .sliceString s => .ok s.isNone
  | .mapStringString m => .ok m.isNone
  | _ => .error (.reflect "IsNil")

/-- Function `reflect.Zero`. -/
def Value.Zero : Typ → Value
  | .ptrBool => .ptrBool none
  | .ptrString => .ptrString none
  | .ptrInt => .ptrInt none
  | .sliceString => .sliceString none
  | .mapStringString => .mapStringString none
  | .bool => .bool false
  | .string => .string ""
  | .int => .int 0

/-- Function `reflect.AppendSlice(s, t)`: both arguments must be slices of the
same type, else it panics. Appending no element returns `s` resliced to its
own length, so a nil slice stays nil; appending at least one element gives a
non-nil slice holding the elements of `s` followed by those of `t`. -/
def AppendSlice : Value → Value → Except Panic Value
  | .sliceString s, .sliceString t =>
    if elems t = [] then .ok (.sliceString s)
    else .ok (.sliceString (some (elems s ++ elems t)))
  | _, _ => .error (.reflect "AppendSlice")

/-! ## `Merge` (`merge.go`) -/

/-- One iteration of the loop `for _, f := range files` of the closure `merge`;
`v` is the `reflect.Value` accumulated so far, `none` while it is invalid. -/
def mergeStep (outTyp : Typ) (val : File → Value) (v : Option Value) (f : File) :
    Except Panic (Option Value) :=
  let x := val f
  if x.Type ≠ outTyp then
    .error (.typeMismatch outTyp x.Type)
  else
    match outTyp.Kind with
    | .Map => do
      let n ← x.Len
      if n > 0 then pure (some x) else pure v
    | .Ptr => do
      let isNil ← x.IsNil
      if !isNil then pure (some x) else pure v
    | .Slice => do
      let v0 := match v with
        | none => Value.Zero outTyp
        | some w => w
      let r ← AppendSlice v0 x
      pure (some r)
    | _ => .error (.unsupported outTyp)

/-- The loop of the closure `merge`: the value that will be assigned to `out`,
or `none` when `v` is still invalid after the loop. -/
def mergeLoop (files : List File) (outTyp : Typ) (val : File → Value) :
    Except Panic (Option Value) :=
  files.foldlM (mergeStep outTyp val) none

/-- The seven targets `out` of the calls of `merge` in `Merge`: pointers to
the fields of the local variable `f`. -/
inductive FieldPtr where
  | Bootstrap
  | CheckUpdateInterval
  | Datacenter
  | BindAddr
  | PortsDNS
  | JoinAddrsLAN
  | NodeMeta
  deriving DecidableEq, Repr

/-- The element type of a target: `reflect.ValueOf(out).Elem().Type()`. -/
def FieldPtr.ElemType : FieldPtr → Typ
  | .Bootstrap => .ptrBool
  | .CheckUpdateInterval => .ptrString
  | .Datacenter => .ptrString
  | .BindAddr => .ptrString
  | .PortsDNS => .ptrInt
  | .JoinAddrsLAN => .sliceString
  | .NodeMeta => .mapStringString

/-- The assignment `reflect.ValueOf(out).Elem().Set(v)`; `Set` panics when the
type of `v` is not assignable to the type of the target. -/
def FieldPtr.Set (out : FieldPtr) (f : File) (v : Value) : Except Panic File :=
  match out, v with
  | .Bootstrap, .ptrBool p => .ok { f with Bootstrap := p }
  | .CheckUpdateInterval, .ptrString p => .ok { f with CheckUpdateInterval := p }
  | .Datacenter, .ptrString p => .ok { f with Datacenter := p }
  | .BindAddr, .ptrString p => .ok { f with BindAddr := p }
  | .PortsDNS, .ptrInt p => .ok { f with Ports := { f.Ports with DNS := p } }
  | .JoinAddrsLAN, .sliceString s => .ok { f with JoinAddrsLAN := s }
  | .NodeMeta, .mapStringString m => .ok { f with NodeMeta := m }
  | _, _ => .error (.reflect "Set")

/-- The closure `merge` of `Merge`: `f` is the local variable of `Merge` that
`out` points into, and the result is `f` after the call. -/
def merge (files : List File) (f : File) (out : FieldPtr) (val : File → Value) :
    Except Panic File := do
  let v ← mergeLoop files out.ElemType val
  match v with
  | some w => out.Set f w
  | none => pure f

/-- Function `Merge` of `merge.go`. -/
def Merge (files : List File) : Except Panic File := do
  let f := File.zero
  let f ← merge files f .Bootstrap (fun f => .ptrBool f.Bootstrap)
  let f ← merge files f .CheckUpdateInterval (fun f => .ptrString f.CheckUpdateInterval)
  let f ← merge files f .Datacenter (fun f => .ptrString f.Datacenter)
  let f ← merge files f .BindAddr (fun f => .ptrString f.BindAddr)
  let f ← merge files f .PortsDNS (fun f => .ptrInt f.Ports.DNS)
  let f ← merge files f .JoinAddrsLAN (fun f => .sliceString f.JoinAddrsLAN)
  let f ← merge files f .NodeMeta (fun f => .mapStringString f.NodeMeta)
  pure f

/-! ## `NewConfig` (`config.go`) -/

/-- Function `strconv.Itoa`: the decimal form of an integer. -/
def Itoa (n : Int) : String := toString n

/-- Function `net.JoinHostPort` of the Go standard library, as in the Go
releases of the time of this code: a host holding a colon or a percent sign is
put in square brackets (later releases test for the colon only; the two agree
on every host without a percent sign). -/
def JoinHostPort (host port : String) : String :=
  if host.data.contains ':' || host.data.contains '%' then
    "[" ++ host ++ "]:" ++ port
  else
    host ++ ":" ++ port

/-- Closure `boolVal`; `err` is the named result `err` at the time of the
call. -/
def boolVal (err : Option GoError) (b : Option Bool) : Bool :=
  match err, b with
  | none, some v => v
  | _, _ => false

/-- Closure `durationVal`: returns the duration and the new value of the named
result `err`, which it assigns. -/
def durationVal (ParseDuration : String → Except String Int) (err : Option GoError)
    (s : Option String) : Int × Option GoError :=
  match err, s with
  | none, some str =>
    match ParseDuration str with
    | .ok d => (d, none)
    | .error msg => (0, some (.parseDuration msg))
  | _, _ => (0, err)

/-- Closure `intVal`. -/
def intVal (err : Option GoError) (n : Option Int) : Int :=
  match err, n with
  | none, some v => v
  | _, _ => 0

/-- Closure `stringVal`. -/
def stringVal (err : Option GoError) (s : Option String) : String :=
  match err, s with
  | none, some v => v
  | _, _ => ""

/-- Closure `addrVal`. -/
def addrVal (err : Option GoError) (s : Option String) : String :=
  let addr := stringVal err s
  if addr = "" then "0.0.0.0" else addr

/-- Closure `joinHostPort`. -/
def joinHostPort (host : String) (port : Int) : String :=
  let host := if host = "0.0.0.0" then "" else host
  JoinHostPort host (Itoa port)

/-- Function `NewConfig` of `config.go`: the pair of its named results
`(c, err)`. -/
def NewConfig (ParseDuration : String → Except String Int) (f : File) :
    Config × Option GoError :=
  let err : Option GoError := none
  let c := Config.zero
  let c := { c with Bootstrap := boolVal err f.Bootstrap }
  let (d, err) := durationVal ParseDuration err f.CheckUpdateInterval
  let c := { c with CheckUpdateInterval := d }
  let c := { c with Datacenter := stringVal err f.Datacenter }
  let c := { c with JoinAddrsLAN := f.JoinAddrsLAN }
  let c := { c with NodeMeta := f.NodeMeta }
  if f.BindAddr = none ∧ f.Ports ≠ FilePorts.zero then
    (Config.zero, some .noBindAddress)
  else
    let c := match f.BindAddr with
      | some _ => { c with BindAddrs := some [addrVal err f.BindAddr] }
      | none => c
    let c := match f.Ports.DNS with
      | some _ =>
        let c := { c with DNSPort := intVal err f.Ports.DNS }
        (elems c.BindAddrs).foldl
          (fun c addr =>
            let c := { c with DNSAddrsTCP := appendOne c.DNSAddrsTCP (joinHostPort addr c.DNSPort) }
            { c with DNSAddrsUDP := appendOne c.DNSAddrsUDP (joinHostPort addr c.DNSPort) })
          c
      | none => c
    (c, err)

/-- A duration parser to instantiate the parameter `ParseDuration` at concrete
inputs. It accepts three literals that `time.ParseDuration` accepts, with
their value in nanoseconds, and rejects every other string with the message
`time.ParseDuration` gives for a string without a leading digit. -/
def sampleParseDuration (s : String) : Except String Int :=
  if s = "0" then .ok 0
  else if s = "1s" then .ok 1000000000
  else if s = "5m" then .ok 300000000000
  else .error ("time: invalid duration " ++ s)

/-! ## `stringMapValue` (`flagset.go`) -/

/-- The two sides of the first occurrence of `sep` in a string: `s[:m]` and
`s[m+1:]` for `m := strings.Index(s, sep)`, and `none` when `sep` does not
occur. -/
def cutFirst (sep : Char) : List Char → Option (List Char × List Char)
  | [] => none
  | c :: cs =>
    if c = sep then some ([], cs)
    else match cutFirst sep cs with
      | some (a, b) => some (c :: a, b)
      | none => none

/-- Function `strings.SplitN(s, sep, 2)` for a separator of one character: the
string itself when the separator does not occur, else the part before its
first occurrence and the part after it. -/
def SplitN2 (s : String) (sep : Char) : List String :=
  match cutFirst sep s.data with
  | none => [s]
  | some (a, b) => [⟨a⟩, ⟨b⟩]

/-- The Go index expression `m[k]` with the comma-ok form: the value of key
`k`, `none` when the map has no such key. -/
def mapIndex (m : StringMap) (k : String) : Option String :=
  match m with
  | none => none
  | some kvs => kvs.lookup k

/-- The Go assignment `m[k] = v`: it panics on a nil map, and otherwise
replaces the entry of `k`, if any, by `(k, v)`. -/
def mapAssign (m : StringMap) (k v : String) : Except Panic StringMap :=
  match m with
  | none => .error (.runtime "assignment to entry in nil map")
  | some kvs => .ok (some ((k, v) :: kvs.filter fun e => e.1 != k))

/-- Function `newStringMapValue`: the map it stores in `*p`, which becomes the
receiver of `Set`. -/
def newStringMapValue : StringMap := some []

/-- Method `stringMapValue.Set`: the map `*s` after the call; the error result
of the method is always nil. -/
def stringMapValue.Set (s : StringMap) (val : String) : Except Panic StringMap :=
  let p := SplitN2 val ':'
  match p[0]? with
  | none => .error (.runtime "index out of range")
  | some k =>
    let v := if p.length = 2 then p[1]?.getD "" else ""
    mapAssign s k v

/-! ## Closed forms of the three merge policies -/

/-- The value of the last present element of a list of optional values, `none`
when no element is present. -/
def lastPresent {α : Type} (xs : List (Option α)) : Option α :=
  xs.foldl (fun acc x => match x with
    | some a => some a
    | none => acc) none

/-- The last map of a list that has at least one entry, the nil map when there
is none. -/
def lastNonEmpty (ms : List StringMap) : StringMap :=
  ms.foldl (fun acc m => if mapLen m > 0 then m else acc) none

/-- The slice holding the elements `l`, nil when there are none. -/
def sliceOf (l : List String) : StringSlice :=
  if l = [] then none else some l

/-- All fields of the result of `Merge` in closed form. -/
def mergedFile (files : List File) : File where
  Bootstrap := lastPresent (files.map fun f => f.Bootstrap)
  CheckUpdateInterval := lastPresent (files.map fun f => f.CheckUpdateInterval)
  Datacenter := lastPresent (files.map fun f => f.Datacenter)
  BindAddr := lastPresent (files.map fun f => f.BindAddr)
  JoinAddrsLAN := sliceOf (files.map fun f => elems f.JoinAddrsLAN).flatten
  NodeMeta := lastNonEmpty (files.map fun f => f.NodeMeta)
  Ports := ⟨lastPresent (files.map fun f => f.Ports.DNS)⟩

/-- The `reflect.Value` accumulated by the loop for a map target, from the map
retained so far (`none` while no map was retained). -/
def mapAcc : StringMap → Option Value
  | none => none
  | some kvs => some (.mapStringString (some kvs))

/-- The optional value `r` is the last present element of `xs`: it is present
exactly when some element of `xs` is, and it holds `v` exactly when `xs` has a
present element holding `v` with only absent elements after it. -/
def IsLastPresent {α : Type} (xs : List (Option α)) (r : Option α) : Prop :=
  (r.isSome ↔ ∃ x ∈ xs, x.isSome) ∧
    ∀ v, r = some v ↔ ∃ pre post, xs = pre ++ some v :: post ∧ ∀ y ∈ post, y = none

/-- The fragments of `TestMerge` in `merge_test.go`. -/
def testMergeFiles : List File :=
  [ File.zero,
    ⟨some false, none, some "a", none, some ["a"], some [("a", "b")], ⟨some 1⟩⟩,
    ⟨some true, none, some "b", none, some ["b"], some [("c", "d")], ⟨some 2⟩⟩,
    File.zero ]

/-- The value `want` of `TestMerge` in `merge_test.go`. -/
def testMergeWant : File :=
  ⟨some true, none, some "b", none, some ["a", "b"], some [("c", "d")], ⟨some 2⟩⟩

/-- A fragment with a malformed CheckUpdateInterval, no bind address and a DNS
port: both the duration step and the bind address check of `NewConfig` fail. -/
def twoFailuresFile : File :=
  ⟨none, some "bad", none, none, none, none, ⟨some 53⟩⟩

/-- A fragment with a malformed CheckUpdateInterval, a datacenter, a bind
address and a DNS port. -/
def malformedIntervalFile : File :=
  ⟨none, some "bad", some "dc1", some "1.2.3.4", none, none, ⟨some 53⟩⟩

/-- A fragment whose only present field is the DNS port, with value 53. -/
def dns53File : File :=
  ⟨none, none, none, none, none, none, ⟨some 53⟩⟩

/-- A fragment with every field present and well-formed. -/
def fullFile : File :=
  ⟨some true, some "5m", some "dc1", some "10.0.0.1", some ["a", "b"], some [("k", "v")],
    ⟨some 8600⟩⟩

/-- Every field of the fragment is absent or empty: the pointer fields are
nil, and the slice and the map are nil or hold nothing. -/
def File.AllAbsent (f : File) : Prop :=
  f.Bootstrap = none ∧ f.CheckUpdateInterval = none ∧ f.Datacenter = none ∧
    f.BindAddr = none ∧ elems f.JoinAddrsLAN = [] ∧ mapLen f.NodeMeta = 0 ∧
    f.Ports.DNS = none

/-- A fragment that is not `File{}` although every field is absent or empty: its
slice and its map are empty and not nil. -/
def emptyNonNilFile : File :=
  ⟨none, none, none, none, some [], some [], ⟨none⟩⟩

/-- The seven calls of `merge` in `Merge`, in order: the target `out` and the
accessor `val` of each. -/
def mergeCalls : List (FieldPtr × (File → Value)) :=
  [ (.Bootstrap, fun f => .ptrBool f.Bootstrap),
    (.CheckUpdateInterval, fun f => .ptrString f.CheckUpdateInterval),
    (.Datacenter, fun f => .ptrString f.Datacenter),
    (.BindAddr, fun f => .ptrString f.BindAddr),
    (.PortsDNS, fun f => .ptrInt f.Ports.DNS),
    (.JoinAddrsLAN, fun f => .sliceString f.JoinAddrsLAN),
    (.NodeMeta, fun f => .mapStringString f.NodeMeta) ]

/-- The entries of a map; the nil map has none. -/
def mapEntries : StringMap → List (String × String)
  | none => []
  | some kvs => kvs

/-- Two fragments are equal when an absent (nil) and an empty slice or map are
taken as equal: the pointer fields are equal, the slices have the same
elements and the maps the same entries. -/
def File.Same (a b : File) : Prop :=
  a.Bootstrap = b.Bootstrap ∧ a.CheckUpdateInterval = b.CheckUpdateInterval ∧
    a.Datacenter = b.Datacenter ∧ a.BindAddr = b.BindAddr ∧
    elems a.JoinAddrsLAN = elems b.JoinAddrsLAN ∧
    mapEntries a.NodeMeta = mapEntries b.NodeMeta ∧ a.Ports.DNS = b.Ports.DNS

/-- Two fragments, the first with a DNS port and no bind address, the second
with a bind address and no DNS port. -/
def portThenBindFiles : List File :=
  [ ⟨none, none, none, none, none, none, ⟨some 53⟩⟩,
    ⟨none, none, none, some "10.0.0.1", none, none, ⟨none⟩⟩ ]

/-! ## The decimal form of an integer -/

/-- The number written by a list of decimal digits, the most significant
first. -/
def digitsValue (cs : List Char) : Nat :=
  cs.foldl (fun acc c => 10 * acc + (c.toNat - 48)) 0

/-- The list `cs` is the decimal numeral of the natural number `n`: it is not
empty, holds only the digits 0 to 9, has no leading zero except for the
numeral "0" itself, and writes `n`. -/
def isDecimalNat (cs : List Char) (n : Nat) : Bool :=
  !cs.isEmpty && cs.all Char.isDigit && (cs.head? != some '0' || cs == ['0']) &&
    digitsValue cs == n

/-- The string `s` is the decimal form of the integer `p`: the decimal numeral
of `p` when `p` is not negative, and a minus sign followed by the decimal
numeral of `-p` when `p` is negative. -/
def isDecimalOf (s : String) (p : Int) : Bool :=
  match s.data with
  | '-' :: cs => decide (p < 0) && isDecimalNat cs p.natAbs
  | cs => decide (0 ≤ p) && isDecimalNat cs p.natAbs

/-- A fragment with a malformed CheckUpdateInterval, a bootstrap flag, a
datacenter, no bind address and the DNS port 0. -/
def twoFailuresFullFile : File :=
  ⟨some true, some "x", some "dc1", none, some ["a"], some [("k", "v")], ⟨some 0⟩⟩

/-- A fragment with the bind address "0.0.0.0" and the DNS port 8600. -/
def wildcardFile : File :=
  ⟨none, none, none, some "0.0.0.0", none, none, ⟨some 8600⟩⟩

/-! ## Lemmas on the closed forms -/

theorem lastPresent_nil {α : Type} : lastPresent ([] : List (Option α)) = none := rfl

theorem lastPresent_foldl {α : Type} (xs : List (Option α)) (init : Option α) :
    xs.foldl (fun acc x => match x with
      | some a => some a
      | none => acc) init
      = match lastPresent xs with
        | some a => some a
        | none => init := by
  induction xs using List.reverseRecOn with
  | nil => rfl
  | append_singleton xs x ih =>
    cases x <;> simp [lastPresent, List.foldl_append] at ih ⊢
    exact ih

theorem lastPresent_append {α : Type} (xs ys : List (Option α)) :
    lastPresent (xs ++ ys) = match lastPresent ys with
      | some a => some a
      | none => lastPresent xs := by
  unfold lastPresent
  rw [List.foldl_append, lastPresent_foldl]
  rfl

theorem lastPresent_concat_some {α : Type} (xs : List (Option α)) (a : α) :
    lastPresent (xs ++ [some a]) = some a := by
  rw [lastPresent_append]; rfl

theorem lastPresent_concat_none {α : Type} (xs : List (Option α)) :
    lastPresent (xs ++ [none]) = lastPresent xs := by
  rw [lastPresent_append]; rfl

theorem lastPresent_eq_none_iff {α : Type} (xs : List (Option α)) :
    lastPresent xs = none ↔ ∀ x ∈ xs, x = none := by
  induction xs using List.reverseRecOn with
  | nil => simp [lastPresent_nil]
  | append_singleton xs x ih =>
    cases x with
    | none =>
      rw [lastPresent_concat_none, ih]
      constructor
      · intro h y hy
        rcases List.mem_append.mp hy with h1 | h1
        · exact h y h1
        · simpa using h1
      · intro h y hy
        exact h y (List.mem_append_left _ hy)
    | some a =>
      rw [lastPresent_concat_some]
      constructor
      · intro h; cases h
      · intro h
        have := h (some a) (by simp)
        cases this

theorem split_last_present {α : Type} (xs pre post : List (Option α)) (x : Option α) (v : α)
    (heq : xs ++ [x] = pre ++ some v :: post) (hpost : ∀ y ∈ post, y = none) :
    (x = some v ∧ xs = pre ∧ post = []) ∨
      (x = none ∧ ∃ post1, post = post1 ++ [none] ∧ xs = pre ++ some v :: post1) := by
  induction post using List.reverseRecOn with
  | nil =>
    left
    have h2 : xs ++ [x] = pre ++ [some v] := by simpa using heq
    have h3 := List.append_inj_right' h2 rfl
    have h4 := List.append_inj_left' h2 rfl
    exact ⟨by simpa using h3, h4, rfl⟩
  | append_singleton post1 z _ =>
    right
    have hz : z = none := hpost z (by simp)
    subst hz
    have h2 : xs ++ [x] = (pre ++ some v :: post1) ++ [none] := by simpa using heq
    have h3 := List.append_inj_right' h2 rfl
    have h4 := List.append_inj_left' h2 rfl
    exact ⟨by simpa using h3, post1, rfl, h4⟩

theorem lastPresent_eq_some_iff {α : Type} (xs : List (Option α)) (v : α) :
    lastPresent xs = some v ↔
      ∃ pre post, xs = pre ++ some v :: post ∧ ∀ y ∈ post, y = none := by
  induction xs using List.reverseRecOn with
  | nil => simp [lastPresent_nil]
  | append_singleton xs x ih =>
    constructor
    · intro h
      cases x with
      | none =>
        rw [lastPresent_concat_none] at h
        obtain ⟨pre, post, rfl, hpost⟩ := ih.mp h
        refine ⟨pre, post ++ [none], by simp, ?_⟩
        intro y hy
        rcases List.mem_append.mp hy with h1 | h1
        · exact hpost y h1
        · simpa using h1
      | some a =>
        rw [lastPresent_concat_some] at h
        cases h
        exact ⟨xs, [], rfl, by simp⟩
    · rintro ⟨pre, post, heq, hpost⟩
      rcases split_last_present xs pre post x v heq hpost with ⟨rfl, _, _⟩ | ⟨rfl, post1, rfl, hxs⟩
      · exact lastPresent_concat_some xs v
      · rw [lastPresent_concat_none]
        exact ih.mpr ⟨pre, post1, hxs, fun y hy => hpost y (List.mem_append_left _ hy)⟩

theorem lastNonEmpty_nil : lastNonEmpty [] = none := rfl

theorem lastNonEmpty_concat (ms : List StringMap) (m : StringMap) :
    lastNonEmpty (ms ++ [m]) = if mapLen m > 0 then m else lastNonEmpty ms := by
  simp [lastNonEmpty, List.foldl_append]

theorem lastNonEmpty_of_all_empty (ms : List StringMap) (h : ∀ m ∈ ms, mapLen m = 0) :
    lastNonEmpty ms = none := by
  induction ms using List.reverseRecOn with
  | nil => rfl
  | append_singleton ms m ih =>
    rw [lastNonEmpty_concat]
    have hm : mapLen m = 0 := h m (by simp)
    simp [hm]
    exact ih (fun x hx => h x (List.mem_append_left _ hx))

theorem lastNonEmpty_split (pre post : List StringMap) (m : StringMap)
    (hm : 0 < mapLen m) (hpost : ∀ y ∈ post, mapLen y = 0) :
    lastNonEmpty (pre ++ m :: post) = m := by
  induction post using List.reverseRecOn with
  | nil =>
    have := lastNonEmpty_concat pre m
    simp [hm] at this
    exact this
  | append_singleton post z ih =>
    have hz : mapLen z = 0 := hpost z (by simp)
    have e : pre ++ m :: (post ++ [z]) = (pre ++ m :: post) ++ [z] := by simp
    rw [e, lastNonEmpty_concat]
    simp [hz]
    exact ih (fun y hy => hpost y (List.mem_append_left _ hy))

theorem lastNonEmpty_cases (ms : List StringMap) :
    (lastNonEmpty ms = none ∧ ∀ m ∈ ms, mapLen m = 0) ∨
      ∃ pre m post, ms = pre ++ m :: post ∧ 0 < mapLen m ∧ (∀ y ∈ post, mapLen y = 0) ∧
        lastNonEmpty ms = m := by
  induction ms using List.reverseRecOn with
  | nil => left; exact ⟨rfl, by simp⟩
  | append_singleton ms m ih =>
    by_cases hm : 0 < mapLen m
    · right
      refine ⟨ms, m, [], rfl, hm, by simp, ?_⟩
      rw [lastNonEmpty_concat]; simp [hm]
    · have hm0 : mapLen m = 0 := by omega
      rcases ih with ⟨hn, hall⟩ | ⟨pre, m1, post, rfl, hm1, hpost, heq⟩
      · left
        refine ⟨?_, ?_⟩
        · rw [lastNonEmpty_concat]; simp [hm0, hn]
        · intro x hx
          rcases List.mem_append.mp hx with h1 | h1
          · exact hall x h1
          · have : x = m := by simpa using h1
            rw [this]; exact hm0
      · right
        refine ⟨pre, m1, post ++ [m], by simp, hm1, ?_, ?_⟩
        · intro y hy
          rcases List.mem_append.mp hy with h1 | h1
          · exact hpost y h1
          · have : y = m := by simpa using h1
            rw [this]; exact hm0
        · rw [lastNonEmpty_concat]; simp [hm0, heq]

theorem elems_sliceOf (l : List String) : elems (sliceOf l) = l := by
  unfold sliceOf
  split
  · next h => simp [elems, h]
  · rfl

theorem sliceOf_append (l t : List String) :
    (if t = [] then sliceOf l else some (elems (sliceOf l) ++ t)) = sliceOf (l ++ t) := by
  by_cases ht : t = []
  · simp [ht]
  · rw [if_neg ht, elems_sliceOf]
    simp [sliceOf, ht]

/-! ## The loop of `merge` in closed form -/

theorem mergeLoop_ptr {α : Type} (mk : Option α → Value) (T : Typ)
    (hT : ∀ p, (mk p).Type = T) (hK : T.Kind = .Ptr)
    (hN : ∀ p, (mk p).IsNil = .ok p.isNone) (g : File → Option α)
    (files : List File) (acc : Option α) :
    files.foldlM (mergeStep T fun f => mk (g f)) (acc.map fun a => mk (some a))
      = .ok ((files.foldl (fun acc f => match g f with
          | some a => some a
          | none => acc) acc).map fun a => mk (some a)) := by
  induction files generalizing acc with
  | nil => rfl
  | cons f fs ih =>
    simp only [List.foldlM_cons, List.foldl_cons]
    have hstep : mergeStep T (fun f => mk (g f)) (acc.map fun a => mk (some a)) f
        = .ok ((match g f with
          | some a => some a
          | none => acc).map fun a => mk (some a)) := by
      unfold mergeStep
      simp only [hT, hK, hN, ne_eq, not_true_eq_false, ↓reduceIte]
      cases hg : g f <;> rfl
    rw [hstep]
    exact ih _

theorem foldl_map_lastPresent {α : Type} (g : File → Option α) (files : List File) :
    files.foldl (fun acc f => match g f with
      | some a => some a
      | none => acc) none = lastPresent (files.map g) := by
  unfold lastPresent
  rw [List.foldl_map]

theorem mapAcc_of_pos (m : StringMap) (h : 0 < mapLen m) :
    some (Value.mapStringString m) = mapAcc m := by
  cases m with
  | none => simp [mapLen] at h
  | some kvs => rfl

theorem mergeLoop_map (files : List File) (acc : StringMap) :
    files.foldlM (mergeStep .mapStringString fun f => .mapStringString f.NodeMeta) (mapAcc acc)
      = .ok (mapAcc (files.foldl (fun acc f =>
          if mapLen f.NodeMeta > 0 then f.NodeMeta else acc) acc)) := by
  induction files generalizing acc with
  | nil => rfl
  | cons f fs ih =>
    simp only [List.foldlM_cons, List.foldl_cons]
    have hstep : mergeStep .mapStringString (fun f => .mapStringString f.NodeMeta) (mapAcc acc) f
        = .ok (mapAcc (if mapLen f.NodeMeta > 0 then f.NodeMeta else acc)) := by
      by_cases h : 0 < mapLen f.NodeMeta
      · simp [mergeStep, Value.Type, Typ.Kind, Value.Len, h, mapAcc_of_pos, bind, Except.bind,
          pure, Except.pure]
      · simp [mergeStep, Value.Type, Typ.Kind, Value.Len, h, bind, Except.bind,
          pure, Except.pure]
    rw [hstep]
    exact ih _

theorem mergeStep_slice (v : Option Value) (l : List String) (f : File)
    (hv : v = none ∧ l = [] ∨ v = some (.sliceString (sliceOf l))) :
    mergeStep .sliceString (fun f => .sliceString f.JoinAddrsLAN) v f
      = .ok (some (.sliceString (sliceOf (l ++ elems f.JoinAddrsLAN)))) := by
  have key : AppendSlice (.sliceString (sliceOf l)) (.sliceString f.JoinAddrsLAN)
      = .ok (.sliceString (sliceOf (l ++ elems f.JoinAddrsLAN))) := by
    unfold AppendSlice
    by_cases ht : elems f.JoinAddrsLAN = []
    · simp [ht]
    · simp only [ht, if_false, elems_sliceOf]
      simp [sliceOf, ht]
  rcases hv with ⟨rfl, rfl⟩ | rfl
  · have hz : Value.Zero .sliceString = .sliceString (sliceOf []) := rfl
    simp only [mergeStep, Value.Type, Typ.Kind, ne_eq, not_true_eq_false, if_false, hz, key,
      bind, Except.bind, pure, Except.pure]
  · simp only [mergeStep, Value.Type, Typ.Kind, ne_eq, not_true_eq_false, if_false, key,
      bind, Except.bind, pure, Except.pure]

theorem mergeLoop_slice_from (files : List File) (v : Option Value) (l : List String)
    (hv : v = none ∧ l = [] ∨ v = some (.sliceString (sliceOf l))) :
    ∃ w, files.foldlM (mergeStep .sliceString fun f => .sliceString f.JoinAddrsLAN) v = .ok w ∧
      (w = none ∨ w = some (.sliceString
        (sliceOf (l ++ (files.map fun f => elems f.JoinAddrsLAN).flatten)))) ∧
      (w = none → files = [] ∧ v = none) := by
  induction files generalizing v l with
  | nil =>
    refine ⟨v, rfl, ?_, ?_⟩
    · rcases hv with ⟨rfl, _⟩ | rfl
      · left; rfl
      · right; simp
    · intro h; exact ⟨rfl, h⟩
  | cons f fs ih =>
    simp only [List.foldlM_cons, mergeStep_slice v l f hv, bind, Except.bind]
    obtain ⟨w, hw, hval, hnone⟩ := ih _ (l ++ elems f.JoinAddrsLAN) (Or.inr rfl)
    refine ⟨w, hw, ?_, ?_⟩
    · rcases hval with rfl | rfl
      · exact absurd (hnone rfl).2 (by simp)
      · right; simp [List.append_assoc]
    · intro h
      exact absurd (hnone h).2 (by simp)

theorem mergeLoop_ptr_closed {α : Type} (mk : Option α → Value) (T : Typ)
    (hT : ∀ p, (mk p).Type = T) (hK : T.Kind = .Ptr)
    (hN : ∀ p, (mk p).IsNil = .ok p.isNone) (g : File → Option α) (files : List File) :
    mergeLoop files T (fun f => mk (g f))
      = .ok ((lastPresent (files.map g)).map fun a => mk (some a)) := by
  have h := mergeLoop_ptr mk T hT hK hN g files none
  rw [foldl_map_lastPresent] at h
  exact h

theorem mergeLoop_map_closed (files : List File) :
    mergeLoop files .mapStringString (fun f => .mapStringString f.NodeMeta)
      = .ok (mapAcc (lastNonEmpty (files.map fun f => f.NodeMeta))) := by
  have h := mergeLoop_map files none
  unfold lastNonEmpty
  rw [List.foldl_map]
  exact h

theorem mergeLoop_slice_closed (files : List File) :
    ∃ w, mergeLoop files .sliceString (fun f => .sliceString f.JoinAddrsLAN) = .ok w ∧
      (match w with
        | some (.sliceString s) => s
        | _ => none) = sliceOf (files.map fun f => elems f.JoinAddrsLAN).flatten := by
  obtain ⟨w, hw, hval, hnone⟩ := mergeLoop_slice_from files none [] (Or.inl ⟨rfl, rfl⟩)
  refine ⟨w, hw, ?_⟩
  rcases hval with rfl | rfl
  · rw [(hnone rfl).1]; rfl
  · simp

/-! ## `Merge` in closed form -/

theorem merge_Bootstrap (files : List File) (f : File) (h : f.Bootstrap = none) :
    merge files f .Bootstrap (fun f => .ptrBool f.Bootstrap)
      = .ok { f with Bootstrap := lastPresent (files.map fun f => f.Bootstrap) } := by
  unfold merge
  rw [show FieldPtr.Bootstrap.ElemType = Typ.ptrBool from rfl,
    mergeLoop_ptr_closed Value.ptrBool .ptrBool (fun _ => rfl) rfl (fun _ => rfl)]
  cases hl : lastPresent (files.map fun f => f.Bootstrap) with
  | none => cases f; cases h; rfl
  | some a => rfl

theorem merge_CheckUpdateInterval (files : List File) (f : File)
    (h : f.CheckUpdateInterval = none) :
    merge files f .CheckUpdateInterval (fun f => .ptrString f.CheckUpdateInterval)
      = .ok { f with
          CheckUpdateInterval := lastPresent (files.map fun f => f.CheckUpdateInterval) } := by
  unfold merge
  rw [show FieldPtr.CheckUpdateInterval.ElemType = Typ.ptrString from rfl,
    mergeLoop_ptr_closed Value.ptrString .ptrString (fun _ => rfl) rfl (fun _ => rfl)]
  cases hl : lastPresent (files.map fun f => f.CheckUpdateInterval) with
  | none => cases f; cases h; rfl
  | some a => rfl

theorem merge_Datacenter (files : List File) (f : File) (h : f.Datacenter = none) :
    merge files f .Datacenter (fun f => .ptrString f.Datacenter)
      = .ok { f with Datacenter := lastPresent (files.map fun f => f.Datacenter) } := by
  unfold merge
  rw [show FieldPtr.Datacenter.ElemType = Typ.ptrString from rfl,
    mergeLoop_ptr_closed Value.ptrString .ptrString (fun _ => rfl) rfl (fun _ => rfl)]
  cases hl : lastPresent (files.map fun f => f.Datacenter) with
  | none => cases f; cases h; rfl
  | some a => rfl

theorem merge_BindAddr (files : List File) (f : File) (h : f.BindAddr = none) :
    merge files f .BindAddr (fun f => .ptrString f.BindAddr)
      = .ok { f with BindAddr := lastPresent (files.map fun f => f.BindAddr) } := by
  unfold merge
  rw [show FieldPtr.BindAddr.ElemType = Typ.ptrString from rfl,
    mergeLoop_ptr_closed Value.ptrString .ptrString (fun _ => rfl) rfl (fun _ => rfl)]
  cases hl : lastPresent (files.map fun f => f.BindAddr) with
  | none => cases f; cases h; rfl
  | some a => rfl

theorem merge_PortsDNS (files : List File) (f : File) (h : f.Ports.DNS = none) :
    merge files f .PortsDNS (fun f => .ptrInt f.Ports.DNS)
      = .ok { f with Ports := ⟨lastPresent (files.map fun f => f.Ports.DNS)⟩ } := by
  unfold merge
  rw [show FieldPtr.PortsDNS.ElemType = Typ.ptrInt from rfl,
    mergeLoop_ptr_closed Value.ptrInt .ptrInt (fun _ => rfl) rfl (fun _ => rfl)
      (fun f => f.Ports.DNS)]
  cases hl : lastPresent (files.map fun f => f.Ports.DNS) with
  | none =>
    obtain ⟨_, _, _, _, _, _, ⟨d⟩⟩ := f
    cases h; rfl
  | some a => rfl

theorem merge_JoinAddrsLAN (files : List File) (f : File) (h : f.JoinAddrsLAN = none) :
    merge files f .JoinAddrsLAN (fun f => .sliceString f.JoinAddrsLAN)
      = .ok { f with
          JoinAddrsLAN := sliceOf (files.map fun f => elems f.JoinAddrsLAN).flatten } := by
  unfold merge
  obtain ⟨w, hw, hval⟩ := mergeLoop_slice_closed files
  rw [show FieldPtr.JoinAddrsLAN.ElemType = Typ.sliceString from rfl, hw]
  rw [← hval]
  obtain ⟨wl, hwl, hcases, hnone⟩ := mergeLoop_slice_from files none [] (Or.inl ⟨rfl, rfl⟩)
  have : w = wl := by
    have e : (Except.ok w : Except Panic (Option Value)) = .ok wl := by
      rw [← hw]; exact hwl
    cases e; rfl
  subst this
  rcases hcases with rfl | rfl
  · cases f; cases h; rfl
  · rfl

theorem merge_NodeMeta (files : List File) (f : File) (h : f.NodeMeta = none) :
    merge files f .NodeMeta (fun f => .mapStringString f.NodeMeta)
      = .ok { f with NodeMeta := lastNonEmpty (files.map fun f => f.NodeMeta) } := by
  unfold merge
  rw [show FieldPtr.NodeMeta.ElemType = Typ.mapStringString from rfl, mergeLoop_map_closed]
  cases hl : lastNonEmpty (files.map fun f => f.NodeMeta) with
  | none => cases f; cases h; rfl
  | some kvs => rfl

theorem Merge_eq_mergedFile (files : List File) : Merge files = .ok (mergedFile files) := by
  unfold Merge
  simp only [bind, Except.bind, pure, Except.pure]
  rw [merge_Bootstrap files File.zero rfl]
  simp only []
  rw [merge_CheckUpdateInterval files _ rfl]
  simp only []
  rw [merge_Datacenter files _ rfl]
  simp only []
  rw [merge_BindAddr files _ rfl]
  simp only []
  rw [merge_PortsDNS files _ rfl]
  simp only []
  rw [merge_JoinAddrsLAN files _ rfl]
  simp only []
  rw [merge_NodeMeta files _ rfl]
  rfl

theorem isLastPresent_lastPresent {α : Type} (xs : List (Option α)) :
    IsLastPresent xs (lastPresent xs) := by
  refine ⟨?_, fun v => lastPresent_eq_some_iff xs v⟩
  constructor
  · intro h
    by_contra hne
    have hall : ∀ x ∈ xs, x = none := by
      intro x hx
      cases hx2 : x with
      | none => rfl
      | some a => exact absurd ⟨x, hx, by simp [hx2]⟩ hne
    rw [(lastPresent_eq_none_iff xs).mpr hall] at h
    simp at h
  · rintro ⟨x, hx, hsome⟩
    cases hl : lastPresent xs with
    | none =>
      have := (lastPresent_eq_none_iff xs).mp hl x hx
      rw [this] at hsome
      simp at hsome
    | some a => rfl

/-! ## `Merge`: the three merge policies -/

/-- The scenario of `TestMerge`: `Merge` returns the value the test wants. -/
theorem Merge_testMergeFiles : Merge testMergeFiles = .ok testMergeWant := by
  rw [Merge_eq_mergedFile]
  rfl

/-- C1: for every list of fragments, `Merge` returns, and each optional-scalar
field of its result (Bootstrap, CheckUpdateInterval, Datacenter, BindAddr,
Ports.DNS) is present exactly when some fragment has it present, and then holds
the value of the last fragment, in input order, that has it present. -/
theorem Merge_optional_scalar_last_present (files : List File) :
    ∃ g, Merge files = .ok g ∧
      IsLastPresent (files.map fun f => f.Bootstrap) g.Bootstrap ∧
      IsLastPresent (files.map fun f => f.CheckUpdateInterval) g.CheckUpdateInterval ∧
      IsLastPresent (files.map fun f => f.Datacenter) g.Datacenter ∧
      IsLastPresent (files.map fun f => f.BindAddr) g.BindAddr ∧
      IsLastPresent (files.map fun f => f.Ports.DNS) g.Ports.DNS :=
  ⟨mergedFile files, Merge_eq_mergedFile files,
    isLastPresent_lastPresent _, isLastPresent_lastPresent _, isLastPresent_lastPresent _,
    isLastPresent_lastPresent _, isLastPresent_lastPresent _⟩

/-- C2: for every list of fragments, `Merge` returns, and the NodeMeta of its
result is the nil map when no fragment has a map with an entry, and otherwise
is, whole, the NodeMeta of the last fragment whose map has an entry (every
fragment after it having an empty or nil map). -/
theorem Merge_NodeMeta_last_nonempty (files : List File) :
    ∃ g, Merge files = .ok g ∧
      ((∀ f ∈ files, mapLen f.NodeMeta = 0) → g.NodeMeta = none) ∧
      (∀ pre f post, files = pre ++ f :: post → 0 < mapLen f.NodeMeta →
        (∀ h ∈ post, mapLen h.NodeMeta = 0) → g.NodeMeta = f.NodeMeta) := by
  refine ⟨mergedFile files, Merge_eq_mergedFile files, ?_, ?_⟩
  · intro h
    apply lastNonEmpty_of_all_empty
    intro m hm
    obtain ⟨f, hf, rfl⟩ := List.mem_map.mp hm
    exact h f hf
  · rintro pre f post rfl hf hpost
    show lastNonEmpty _ = _
    rw [List.map_append, List.map_cons]
    apply lastNonEmpty_split _ _ _ hf
    intro y hy
    obtain ⟨h, hh, rfl⟩ := List.mem_map.mp hy
    exact hpost h hh

/-- C3: for every list of fragments, `Merge` returns, and the elements of the
JoinAddrsLAN of its result are the elements of the JoinAddrsLAN of all
fragments, concatenated in input order; their number is the sum of the
lengths of the inputs. -/
theorem Merge_JoinAddrsLAN_concat (files : List File) :
    ∃ g, Merge files = .ok g ∧
      elems g.JoinAddrsLAN = (files.map fun f => elems f.JoinAddrsLAN).flatten ∧
      (elems g.JoinAddrsLAN).length = (files.map fun f => (elems f.JoinAddrsLAN).length).sum := by
  refine ⟨mergedFile files, Merge_eq_mergedFile files, elems_sliceOf _, ?_⟩
  show (elems (sliceOf _)).length = _
  rw [elems_sliceOf, List.length_flatten, List.map_map]
  rfl

/-! ## `NewConfig` -/

theorem NewConfig_bail (P : String → Except String Int) (f : File)
    (hb : f.BindAddr = none) (hp : f.Ports.DNS ≠ none) :
    NewConfig P f = (Config.zero, some .noBindAddress) := by
  obtain ⟨b, cui, dc, ba, j, m, ⟨dns⟩⟩ := f
  simp only at hb hp
  subst hb
  have hne : (⟨dns⟩ : FilePorts) ≠ FilePorts.zero := by
    intro h
    apply hp
    simpa [FilePorts.zero] using h
  unfold NewConfig
  simp only [hne, ne_eq, not_false_eq_true, and_self, if_true]

/-- C4: every fragment whose bind address is absent and whose DNS port is
present makes `NewConfig` return the zero `Config` and the error whose message
is "no bind address specified", whatever the other fields hold. -/
theorem NewConfig_no_bind_address (P : String → Except String Int) (f : File)
    (hb : f.BindAddr = none) (hp : f.Ports.DNS.isSome) :
    NewConfig P f = (Config.zero, some .noBindAddress) ∧
      GoError.noBindAddress.Error = "no bind address specified" := by
  refine ⟨NewConfig_bail P f hb ?_, rfl⟩
  intro h
  rw [h] at hp
  simp at hp

theorem NewConfig_no_bind_address_witness :
    NewConfig sampleParseDuration
        ⟨some true, some "1s", some "dc1", none, some ["a"], some [("k", "v")], ⟨some 0⟩⟩
      = (Config.zero, some .noBindAddress) ∧
      GoError.noBindAddress.Error = "no bind address specified" :=
  NewConfig_no_bind_address sampleParseDuration
    ⟨some true, some "1s", some "dc1", none, some ["a"], some [("k", "v")], ⟨some 0⟩⟩ rfl rfl

theorem NewConfig_bind_dns (P : String → Except String Int) (f : File) (h : String) (p : Int)
    (hb : f.BindAddr = some h) (hp : f.Ports.DNS = some p) :
    NewConfig P f =
      (⟨boolVal none f.Bootstrap, (durationVal P none f.CheckUpdateInterval).1,
        stringVal (durationVal P none f.CheckUpdateInterval).2 f.Datacenter,
        some [addrVal (durationVal P none f.CheckUpdateInterval).2 (some h)],
        f.JoinAddrsLAN,
        intVal (durationVal P none f.CheckUpdateInterval).2 (some p),
        some [joinHostPort (addrVal (durationVal P none f.CheckUpdateInterval).2 (some h))
          (intVal (durationVal P none f.CheckUpdateInterval).2 (some p))],
        some [joinHostPort (addrVal (durationVal P none f.CheckUpdateInterval).2 (some h))
          (intVal (durationVal P none f.CheckUpdateInterval).2 (some p))],
        f.NodeMeta⟩,
       (durationVal P none f.CheckUpdateInterval).2) := by
  obtain ⟨b, cui, dc, ba, j, m, ⟨dns⟩⟩ := f
  simp only at hb hp
  subst hb hp
  unfold NewConfig
  simp [Config.zero, elems, appendOne]

theorem NewConfig_bind_nodns (P : String → Except String Int) (f : File) (h : String)
    (hb : f.BindAddr = some h) (hp : f.Ports.DNS = none) :
    NewConfig P f =
      (⟨boolVal none f.Bootstrap, (durationVal P none f.CheckUpdateInterval).1,
        stringVal (durationVal P none f.CheckUpdateInterval).2 f.Datacenter,
        some [addrVal (durationVal P none f.CheckUpdateInterval).2 (some h)],
        f.JoinAddrsLAN, 0, none, none, f.NodeMeta⟩,
       (durationVal P none f.CheckUpdateInterval).2) := by
  obtain ⟨b, cui, dc, ba, j, m, ⟨dns⟩⟩ := f
  simp only at hb hp
  subst hb hp
  unfold NewConfig
  simp [Config.zero]

theorem NewConfig_nobind_nodns (P : String → Except String Int) (f : File)
    (hb : f.BindAddr = none) (hp : f.Ports.DNS = none) :
    NewConfig P f =
      (⟨boolVal none f.Bootstrap, (durationVal P none f.CheckUpdateInterval).1,
        stringVal (durationVal P none f.CheckUpdateInterval).2 f.Datacenter,
        none, f.JoinAddrsLAN, 0, none, none, f.NodeMeta⟩,
       (durationVal P none f.CheckUpdateInterval).2) := by
  obtain ⟨b, cui, dc, ba, j, m, ⟨dns⟩⟩ := f
  simp only at hb hp
  subst hb hp
  unfold NewConfig
  simp [Config.zero, FilePorts.zero]

theorem durationVal_absent (P : String → Except String Int) :
    durationVal P none none = (0, none) := rfl

theorem durationVal_ok (P : String → Except String Int) (s : String) (d : Int)
    (h : P s = .ok d) : durationVal P none (some s) = (d, none) := by
  simp [durationVal, h]

theorem durationVal_error (P : String → Except String Int) (s msg : String)
    (h : P s = .error msg) : durationVal P none (some s) = (0, some (.parseDuration msg)) := by
  simp [durationVal, h]

theorem NewConfig_snd_cases (P : String → Except String Int) (f : File) :
    (f.BindAddr = none ∧ f.Ports.DNS ≠ none ∧ (NewConfig P f).2 = some .noBindAddress) ∨
      (¬(f.BindAddr = none ∧ f.Ports.DNS ≠ none) ∧
        (NewConfig P f).2 = (durationVal P none f.CheckUpdateInterval).2) := by
  cases hb : f.BindAddr with
  | none =>
    cases hp : f.Ports.DNS with
    | none => right; simp [NewConfig_nobind_nodns P f hb hp]
    | some p => left; simp [NewConfig_bail P f hb (by simp [hp])]
  | some h =>
    right
    cases hp : f.Ports.DNS with
    | none => simp [NewConfig_bind_nodns P f h hb hp]
    | some p => simp [NewConfig_bind_dns P f h p hb hp]

/-- C5 (counterexample): on a fragment whose CheckUpdateInterval is malformed
and whose bind address is absent while the DNS port is present, the duration
step fails first and sets the duration parse error, and yet `NewConfig`
returns the missing-bind-address error, not the duration parse error. -/
theorem NewConfig_twoFailures_returns_noBindAddress :
    durationVal sampleParseDuration none twoFailuresFile.CheckUpdateInterval
        = (0, some (.parseDuration "time: invalid duration bad")) ∧
      NewConfig sampleParseDuration twoFailuresFile = (Config.zero, some .noBindAddress) ∧
      (NewConfig sampleParseDuration twoFailuresFile).2
        ≠ some (.parseDuration "time: invalid duration bad") := by
  decide

/-- C5 (amended): on every fragment on which both assembly steps that can fail
do fail, CheckUpdateInterval being present and malformed and the bind address
absent while the DNS port is present, the duration step sets the duration
parse error and `NewConfig` returns the zero `Config` with the error of the
bind address check, "no bind address specified", not the duration parse
error. -/
theorem NewConfig_two_failures (P : String → Except String Int) (f : File) (s msg : String)
    (hc : f.CheckUpdateInterval = some s) (hP : P s = .error msg)
    (hb : f.BindAddr = none) (hp : f.Ports.DNS ≠ none) :
    durationVal P none f.CheckUpdateInterval = (0, some (.parseDuration msg)) ∧
      NewConfig P f = (Config.zero, some .noBindAddress) ∧
      GoError.noBindAddress.Error = "no bind address specified" ∧
      (NewConfig P f).2 ≠ some (.parseDuration msg) := by
  refine ⟨?_, NewConfig_bail P f hb hp, rfl, ?_⟩
  · rw [hc]; exact durationVal_error P s msg hP
  · rw [NewConfig_bail P f hb hp]
    simp

theorem NewConfig_two_failures_witness :
    durationVal sampleParseDuration none twoFailuresFullFile.CheckUpdateInterval
        = (0, some (.parseDuration "time: invalid duration x")) ∧
      NewConfig sampleParseDuration twoFailuresFullFile = (Config.zero, some .noBindAddress) ∧
      GoError.noBindAddress.Error = "no bind address specified" ∧
      (NewConfig sampleParseDuration twoFailuresFullFile).2
        ≠ some (.parseDuration "time: invalid duration x") :=
  NewConfig_two_failures sampleParseDuration twoFailuresFullFile "x" "time: invalid duration x"
    rfl rfl rfl (by decide)

/-- C6 (evaluation at the failing input): on a fragment whose CheckUpdateInterval
is malformed and that has a bind address and a DNS port, `NewConfig` returns
the duration parse error with a `Config` in which Datacenter is empty and
DNSPort is 0, but BindAddrs holds "0.0.0.0" and both endpoint lists hold
":0". -/
theorem NewConfig_malformedInterval_derives_endpoints :
    NewConfig sampleParseDuration malformedIntervalFile
      = (⟨false, 0, "", some ["0.0.0.0"], none, 0, some [":0"], some [":0"], none⟩,
         some (.parseDuration "time: invalid duration bad")) := by
  decide

/-- C7 (counterexample): on the fragment whose only present field is the DNS
port 53, `NewConfig` fails with the missing-bind-address error and returns the
zero `Config`: no bind address is resolved and no endpoint is derived. -/
theorem NewConfig_dns53_without_bind_fails :
    dns53File.BindAddr = none ∧ dns53File.Ports.DNS = some 53 ∧
      NewConfig sampleParseDuration dns53File = (Config.zero, some .noBindAddress) ∧
      (NewConfig sampleParseDuration dns53File).1.BindAddrs = none ∧
      (NewConfig sampleParseDuration dns53File).1.DNSAddrsTCP ≠ some [":53"] ∧
      (NewConfig sampleParseDuration dns53File).1.DNSAddrsUDP ≠ some [":53"] := by
  decide

/-- C7 (amended): for a fragment whose bind address is present and empty, whose
DNS port is present with value 53 and whose CheckUpdateInterval is absent or
parses, `NewConfig` succeeds, resolves the bind address to "0.0.0.0" and
derives one TCP and one UDP endpoint with an empty host and port "53":
DNSAddrsTCP = DNSAddrsUDP = [":53"]. -/
theorem NewConfig_empty_bind_dns53 (P : String → Except String Int) (f : File)
    (hb : f.BindAddr = some "") (hp : f.Ports.DNS = some 53)
    (hd : ∀ s, f.CheckUpdateInterval = some s → ∃ d, P s = .ok d) :
    (NewConfig P f).2 = none ∧
      (NewConfig P f).1.BindAddrs = some ["0.0.0.0"] ∧
      (NewConfig P f).1.DNSPort = 53 ∧
      (NewConfig P f).1.DNSAddrsTCP = some [":53"] ∧
      (NewConfig P f).1.DNSAddrsUDP = some [":53"] := by
  have herr : (durationVal P none f.CheckUpdateInterval).2 = none := by
    cases hc : f.CheckUpdateInterval with
    | none => rfl
    | some s =>
      obtain ⟨d, hd⟩ := hd s hc
      rw [durationVal_ok P s d hd]
  rw [NewConfig_bind_dns P f "" 53 hb hp]
  simp only [herr]
  decide

theorem NewConfig_empty_bind_dns53_witness :
    (NewConfig sampleParseDuration ⟨none, some "1s", none, some "", none, none, ⟨some 53⟩⟩).2
        = none ∧
      (NewConfig sampleParseDuration
        ⟨none, some "1s", none, some "", none, none, ⟨some 53⟩⟩).1.BindAddrs
        = some ["0.0.0.0"] ∧
      (NewConfig sampleParseDuration
        ⟨none, some "1s", none, some "", none, none, ⟨some 53⟩⟩).1.DNSPort = 53 ∧
      (NewConfig sampleParseDuration
        ⟨none, some "1s", none, some "", none, none, ⟨some 53⟩⟩).1.DNSAddrsTCP
        = some [":53"] ∧
      (NewConfig sampleParseDuration
        ⟨none, some "1s", none, some "", none, none, ⟨some 53⟩⟩).1.DNSAddrsUDP
        = some [":53"] :=
  NewConfig_empty_bind_dns53 sampleParseDuration
    ⟨none, some "1s", none, some "", none, none, ⟨some 53⟩⟩ rfl rfl
    (fun s hs => ⟨1000000000, by cases hs; rfl⟩)

theorem joinHostPort_wildcard (p : Int) : joinHostPort "0.0.0.0" p = ":" ++ Itoa p := by
  simp [joinHostPort, JoinHostPort]

theorem joinHostPort_plain (h : String) (p : Int) (h0 : h ≠ "0.0.0.0")
    (hc : ':' ∉ h.data) (hpc : '%' ∉ h.data) : joinHostPort h p = h ++ ":" ++ Itoa p := by
  simp [joinHostPort, JoinHostPort, h0, hc, hpc]

theorem digitChar_props (k : Nat) (hk : k < 10) :
    (Nat.digitChar k).isDigit = true ∧ (Nat.digitChar k).toNat - 48 = k ∧
      (Nat.digitChar k = '0' ↔ k = 0) := by
  interval_cases k <;> decide

theorem digitsValue_append (cs : List Char) (c : Char) :
    digitsValue (cs ++ [c]) = 10 * digitsValue cs + (c.toNat - 48) := by
  simp [digitsValue, List.foldl_append]

theorem toDigitsCore_spec (fuel : Nat) : ∀ n ds, n < fuel →
    ∃ cs, Nat.toDigitsCore 10 fuel n ds = cs ++ ds ∧ cs ≠ [] ∧
      (∀ c ∈ cs, c.isDigit = true) ∧ (0 < n → cs.head? ≠ some '0') ∧
      (n = 0 → cs = ['0']) ∧ digitsValue cs = n := by
  induction fuel with
  | zero => intro n ds h; omega
  | succ fuel ih =>
    intro n ds hn
    have hmod : n % 10 < 10 := Nat.mod_lt _ (by decide)
    obtain ⟨hd1, hd2, hd3⟩ := digitChar_props (n % 10) hmod
    by_cases h0 : n / 10 = 0
    · have hlt : n < 10 := by omega
      have hm : n % 10 = n := Nat.mod_eq_of_lt hlt
      rw [hm] at hd1 hd2 hd3
      refine ⟨[Nat.digitChar n], ?_, by simp, ?_, ?_, ?_, ?_⟩
      · simp [Nat.toDigitsCore, h0, hm]
      · intro c hc
        simp at hc
        rw [hc]; exact hd1
      · intro hpos hh
        simp at hh
        have := hd3.mp hh
        omega
      · intro hz
        subst hz
        rfl
      · simp [digitsValue, hd2]
    · have hlt : n / 10 < fuel := by omega
      obtain ⟨cs, hcs, hne, hdig, hhead, _, hval⟩ :=
        ih (n / 10) (Nat.digitChar (n % 10) :: ds) hlt
      refine ⟨cs ++ [Nat.digitChar (n % 10)], ?_, by simp, ?_, ?_, ?_, ?_⟩
      · simp [Nat.toDigitsCore, h0, hcs]
      · intro c hc
        rcases List.mem_append.mp hc with h | h
        · exact hdig c h
        · simp at h
          rw [h]; exact hd1
      · intro _
        have hpos : 0 < n / 10 := Nat.pos_of_ne_zero h0
        have := hhead hpos
        cases cs with
        | nil => exact absurd rfl hne
        | cons a as => simpa using this
      · intro hz
        subst hz
        simp at h0
      · rw [digitsValue_append, hval, hd2]
        omega

theorem isDecimalNat_toDigits (n : Nat) : isDecimalNat (Nat.toDigits 10 n) n = true := by
  obtain ⟨cs, hcs, hne, hdig, hhead, hzero, hval⟩ := toDigitsCore_spec (n + 1) n [] (by omega)
  have e : Nat.toDigits 10 n = cs := by
    simp [Nat.toDigits, hcs]
  rw [e]
  have h1 : cs.isEmpty = false := by
    cases cs with
    | nil => exact absurd rfl hne
    | cons a as => rfl
  have h2 : cs.all Char.isDigit = true := by
    rw [List.all_eq_true]; exact hdig
  have h3 : (cs.head? != some '0' || cs == ['0']) = true := by
    rcases Nat.eq_zero_or_pos n with hz | hp
    · rw [hzero hz]; decide
    · have := hhead hp
      simp [this]
  simp only [isDecimalNat, h1, h2, h3, hval, Bool.not_false, Bool.and_self, beq_self_eq_true]

theorem head_toDigits_ne_minus (n : Nat) : ∀ cs, Nat.toDigits 10 n ≠ '-' :: cs := by
  intro cs h
  obtain ⟨ds, hds, _, hdig, _, _, _⟩ := toDigitsCore_spec (n + 1) n [] (by omega)
  have e : Nat.toDigits 10 n = ds := by
    simp [Nat.toDigits, hds]
  rw [e] at h
  have := hdig '-' (by rw [h]; simp)
  exact absurd this (by decide)

/-- `strconv.Itoa` returns the decimal form of its argument. -/
theorem isDecimalOf_Itoa (p : Int) : isDecimalOf (Itoa p) p = true := by
  unfold Itoa
  cases p with
  | ofNat m =>
    have hd : (toString (Int.ofNat m)).data = Nat.toDigits 10 m := rfl
    unfold isDecimalOf
    rw [hd]
    split
    · next cs h => exact absurd h (head_toDigits_ne_minus m cs)
    · simp [isDecimalNat_toDigits]
  | negSucc m =>
    have hd : (toString (Int.negSucc m)).data = '-' :: Nat.toDigits 10 (m + 1) := rfl
    unfold isDecimalOf
    rw [hd]
    simp [isDecimalNat_toDigits, Int.negSucc_lt_zero]

/-- What `isDecimalOf` accepts and what it refuses: no empty string, no
leading zero, no plus sign, no "-0", no other number. -/
theorem isDecimalOf_examples :
    isDecimalOf "53" 53 = true ∧ isDecimalOf "0" 0 = true ∧ isDecimalOf "-7" (-7) = true ∧
      isDecimalOf "" 53 = false ∧ isDecimalOf "053" 53 = false ∧
      isDecimalOf "+53" 53 = false ∧ isDecimalOf "-0" 0 = false ∧
      isDecimalOf "54" 53 = false ∧ isDecimalOf "5" 53 = false ∧
      isDecimalOf "35" 53 = false ∧ isDecimalOf "7" (-7) = false := by
  decide

/-- C8: on every fragment on which `NewConfig` succeeds: with the bind address
present (value `h`) and the DNS port present (value `p`), DNSPort is `p` and
DNSAddrsTCP and DNSAddrsUDP hold the same single endpoint; with `d` the
decimal form of `p`, that endpoint is ":" followed by `d` when `h` is "" or
"0.0.0.0", and `h` followed by ":" and `d` when `h` is another host without
a colon or percent sign; with the DNS port absent, DNSPort is 0 and both
endpoint lists are empty. -/
theorem NewConfig_dns_endpoints (P : String → Except String Int) (f : File)
    (hs : (NewConfig P f).2 = none) :
    (∀ h p, f.BindAddr = some h → f.Ports.DNS = some p →
      (NewConfig P f).1.DNSPort = p ∧
      ∃ e d, (NewConfig P f).1.DNSAddrsTCP = some [e] ∧
        (NewConfig P f).1.DNSAddrsUDP = some [e] ∧
        isDecimalOf d p = true ∧
        (h = "" ∨ h = "0.0.0.0" → e = ":" ++ d) ∧
        (h ≠ "" → h ≠ "0.0.0.0" → ':' ∉ h.data → '%' ∉ h.data → e = h ++ ":" ++ d)) ∧
      (f.Ports.DNS = none →
        (NewConfig P f).1.DNSPort = 0 ∧ (NewConfig P f).1.DNSAddrsTCP = none ∧
          (NewConfig P f).1.DNSAddrsUDP = none) := by
  constructor
  · intro h p hb hp
    rw [NewConfig_bind_dns P f h p hb hp] at hs ⊢
    simp only at hs
    simp only [hs]
    refine ⟨rfl, _, Itoa p, rfl, rfl, isDecimalOf_Itoa p, ?_, ?_⟩
    · rintro (rfl | rfl)
      · exact joinHostPort_wildcard p
      · exact joinHostPort_wildcard p
    · intro h1 h2 h3 h4
      have ha : addrVal none (some h) = h := by simp [addrVal, stringVal, h1]
      rw [ha]
      exact joinHostPort_plain h p h2 h3 h4
  · intro hp
    cases hb : f.BindAddr with
    | none => rw [NewConfig_nobind_nodns P f hb hp]; exact ⟨rfl, rfl, rfl⟩
    | some h => rw [NewConfig_bind_nodns P f h hb hp]; exact ⟨rfl, rfl, rfl⟩

theorem NewConfig_dns_endpoints_witness :
    ((NewConfig sampleParseDuration fullFile).2 = none ∧
      (NewConfig sampleParseDuration fullFile).1.DNSAddrsTCP = some ["10.0.0.1:8600"] ∧
      (NewConfig sampleParseDuration fullFile).1.DNSAddrsUDP = some ["10.0.0.1:8600"]) ∧
      ((∀ h p, fullFile.BindAddr = some h → fullFile.Ports.DNS = some p →
        (NewConfig sampleParseDuration fullFile).1.DNSPort = p ∧
        ∃ e d, (NewConfig sampleParseDuration fullFile).1.DNSAddrsTCP = some [e] ∧
          (NewConfig sampleParseDuration fullFile).1.DNSAddrsUDP = some [e] ∧
          isDecimalOf d p = true ∧
          (h = "" ∨ h = "0.0.0.0" → e = ":" ++ d) ∧
          (h ≠ "" → h ≠ "0.0.0.0" → ':' ∉ h.data → '%' ∉ h.data →
            e = h ++ ":" ++ d)) ∧
        (fullFile.Ports.DNS = none →
          (NewConfig sampleParseDuration fullFile).1.DNSPort = 0 ∧
            (NewConfig sampleParseDuration fullFile).1.DNSAddrsTCP = none ∧
            (NewConfig sampleParseDuration fullFile).1.DNSAddrsUDP = none)) :=
  ⟨by decide, NewConfig_dns_endpoints sampleParseDuration fullFile (by decide)⟩

/-- The endpoints of two fragments written out: the port is kept, in decimal,
after the host or after the emptied wildcard host, also when it is 0 or
negative. -/
theorem NewConfig_dns_endpoints_literal :
    (NewConfig sampleParseDuration wildcardFile).1.DNSAddrsTCP = some [":8600"] ∧
      (NewConfig sampleParseDuration wildcardFile).1.DNSAddrsUDP = some [":8600"] ∧
      (NewConfig sampleParseDuration fullFile).1.DNSAddrsTCP = some ["10.0.0.1:8600"] ∧
      (NewConfig sampleParseDuration
        ⟨none, none, none, some "", none, none, ⟨some 0⟩⟩).1.DNSAddrsTCP = some [":0"] ∧
      (NewConfig sampleParseDuration
        ⟨none, none, none, some "host", none, none, ⟨some (-1)⟩⟩).1.DNSAddrsUDP
        = some ["host:-1"] ∧
      Itoa 8600 = "8600" ∧ Itoa 0 = "0" ∧ Itoa (-1) = "-1" := by
  decide

/-- The result of `NewConfig` on the fragment with every field present. -/
theorem NewConfig_fullFile :
    NewConfig sampleParseDuration fullFile
      = (⟨true, 300000000000, "dc1", some ["10.0.0.1"], some ["a", "b"], 8600,
          some ["10.0.0.1:8600"], some ["10.0.0.1:8600"], some [("k", "v")]⟩, none) := by
  decide

/-- C9: on every fragment on which `NewConfig` succeeds, BindAddrs is the
single-element list holding the bind address when it is present, an empty bind
address being replaced by "0.0.0.0", and is empty when the bind address is
absent. -/
theorem NewConfig_BindAddrs (P : String → Except String Int) (f : File)
    (hs : (NewConfig P f).2 = none) :
    (∀ h, f.BindAddr = some h →
      (NewConfig P f).1.BindAddrs = some [if h = "" then "0.0.0.0" else h]) ∧
      (f.BindAddr = none → (NewConfig P f).1.BindAddrs = none) := by
  constructor
  · intro h hb
    cases hp : f.Ports.DNS with
    | none =>
      rw [NewConfig_bind_nodns P f h hb hp] at hs ⊢
      simp only at hs
      simp only [hs]
      rfl
    | some p =>
      rw [NewConfig_bind_dns P f h p hb hp] at hs ⊢
      simp only at hs
      simp only [hs]
      rfl
  · intro hb
    cases hp : f.Ports.DNS with
    | none => rw [NewConfig_nobind_nodns P f hb hp]
    | some p => rw [NewConfig_bail P f hb (by simp [hp])]; rfl

theorem NewConfig_BindAddrs_witness :
    (NewConfig sampleParseDuration ⟨none, none, none, some "", none, none, ⟨none⟩⟩).2 = none ∧
      ((∀ h, (⟨none, none, none, some "", none, none, ⟨none⟩⟩ : File).BindAddr = some h →
        (NewConfig sampleParseDuration ⟨none, none, none, some "", none, none, ⟨none⟩⟩).1.BindAddrs
          = some [if h = "" then "0.0.0.0" else h]) ∧
        ((⟨none, none, none, some "", none, none, ⟨none⟩⟩ : File).BindAddr = none →
          (NewConfig sampleParseDuration
            ⟨none, none, none, some "", none, none, ⟨none⟩⟩).1.BindAddrs = none)) :=
  ⟨by decide,
    NewConfig_BindAddrs sampleParseDuration ⟨none, none, none, some "", none, none, ⟨none⟩⟩
      (by decide)⟩

/-- C10: for every duration parser and every fragment: when CheckUpdateInterval
is absent, the duration step yields the zero duration and sets no error, and
the returned CheckUpdateInterval is 0; when it is present and parses to `d`
and the bind address check does not fail, `NewConfig` succeeds with
CheckUpdateInterval `d`; when it is present and does not parse, `NewConfig`
returns an error. -/
theorem NewConfig_CheckUpdateInterval (P : String → Except String Int) (f : File) :
    (f.CheckUpdateInterval = none →
      durationVal P none f.CheckUpdateInterval = (0, none) ∧
        (NewConfig P f).1.CheckUpdateInterval = 0 ∧
        ∀ msg, (NewConfig P f).2 ≠ some (.parseDuration msg)) ∧
      (∀ s d, f.CheckUpdateInterval = some s → P s = .ok d →
        ¬(f.BindAddr = none ∧ f.Ports.DNS ≠ none) →
        (NewConfig P f).2 = none ∧ (NewConfig P f).1.CheckUpdateInterval = d) ∧
      (∀ s msg, f.CheckUpdateInterval = some s → P s = .error msg →
        (NewConfig P f).2 ≠ none) := by
  refine ⟨?_, ?_, ?_⟩
  · intro hc
    have hd : durationVal P none f.CheckUpdateInterval = (0, none) := by rw [hc]; rfl
    refine ⟨hd, ?_, ?_⟩
    · cases hb : f.BindAddr with
      | none =>
        cases hp : f.Ports.DNS with
        | none => rw [NewConfig_nobind_nodns P f hb hp, hd]
        | some p => rw [NewConfig_bail P f hb (by simp [hp])]; rfl
      | some h =>
        cases hp : f.Ports.DNS with
        | none => rw [NewConfig_bind_nodns P f h hb hp, hd]
        | some p => rw [NewConfig_bind_dns P f h p hb hp, hd]
    · intro msg
      rcases NewConfig_snd_cases P f with ⟨_, _, h⟩ | ⟨_, h⟩
      · rw [h]; simp
      · rw [h, hd]; simp
  · intro s d hc hP hnb
    have hd : durationVal P none f.CheckUpdateInterval = (d, none) := by
      rw [hc]; exact durationVal_ok P s d hP
    cases hb : f.BindAddr with
    | none =>
      cases hp : f.Ports.DNS with
      | none => rw [NewConfig_nobind_nodns P f hb hp, hd]; exact ⟨rfl, rfl⟩
      | some p => exact absurd ⟨hb, by simp [hp]⟩ hnb
    | some h =>
      cases hp : f.Ports.DNS with
      | none => rw [NewConfig_bind_nodns P f h hb hp, hd]; exact ⟨rfl, rfl⟩
      | some p => rw [NewConfig_bind_dns P f h p hb hp, hd]; exact ⟨rfl, rfl⟩
  · intro s msg hc hP
    have hd : durationVal P none f.CheckUpdateInterval = (0, some (.parseDuration msg)) := by
      rw [hc]; exact durationVal_error P s msg hP
    rcases NewConfig_snd_cases P f with ⟨_, _, h⟩ | ⟨_, h⟩
    · rw [h]; simp
    · rw [h, hd]; simp

/-! ## `NewConfig`: passthrough fields and defaults -/

theorem NewConfig_passthrough (P : String → Except String Int) (f : File)
    (hs : (NewConfig P f).2 = none) :
    (NewConfig P f).1.Bootstrap = boolVal none f.Bootstrap ∧
      (NewConfig P f).1.Datacenter = stringVal none f.Datacenter ∧
      (NewConfig P f).1.JoinAddrsLAN = f.JoinAddrsLAN ∧
      (NewConfig P f).1.NodeMeta = f.NodeMeta := by
  cases hb : f.BindAddr with
  | none =>
    cases hp : f.Ports.DNS with
    | none =>
      rw [NewConfig_nobind_nodns P f hb hp] at hs ⊢
      simp only at hs
      simp only [hs, and_self]
    | some p =>
      rw [NewConfig_bail P f hb (by simp [hp])] at hs
      simp at hs
  | some h =>
    cases hp : f.Ports.DNS with
    | none =>
      rw [NewConfig_bind_nodns P f h hb hp] at hs ⊢
      simp only at hs
      simp only [hs, and_self]
    | some p =>
      rw [NewConfig_bind_dns P f h p hb hp] at hs ⊢
      simp only at hs
      simp only [hs, and_self]

/-- C11: on every fragment on which `NewConfig` succeeds, Bootstrap is the
value of the fragment when present and false when absent, Datacenter is the
value of the fragment when present and the empty string when absent, and
JoinAddrsLAN and NodeMeta are those of the fragment, unchanged. -/
theorem NewConfig_simple_values (P : String → Except String Int) (f : File)
    (hs : (NewConfig P f).2 = none) :
    (∀ b, f.Bootstrap = some b → (NewConfig P f).1.Bootstrap = b) ∧
      (f.Bootstrap = none → (NewConfig P f).1.Bootstrap = false) ∧
      (∀ d, f.Datacenter = some d → (NewConfig P f).1.Datacenter = d) ∧
      (f.Datacenter = none → (NewConfig P f).1.Datacenter = "") ∧
      (NewConfig P f).1.JoinAddrsLAN = f.JoinAddrsLAN ∧
      (NewConfig P f).1.NodeMeta = f.NodeMeta := by
  obtain ⟨h1, h2, h3, h4⟩ := NewConfig_passthrough P f hs
  refine ⟨?_, ?_, ?_, ?_, h3, h4⟩
  · intro b hb; rw [h1, hb]; rfl
  · intro hb; rw [h1, hb]; rfl
  · intro d hd; rw [h2, hd]; rfl
  · intro hd; rw [h2, hd]; rfl

theorem NewConfig_simple_values_witness :
    (NewConfig sampleParseDuration fullFile).2 = none ∧
      ((∀ b, fullFile.Bootstrap = some b →
        (NewConfig sampleParseDuration fullFile).1.Bootstrap = b) ∧
      (fullFile.Bootstrap = none → (NewConfig sampleParseDuration fullFile).1.Bootstrap = false) ∧
      (∀ d, fullFile.Datacenter = some d →
        (NewConfig sampleParseDuration fullFile).1.Datacenter = d) ∧
      (fullFile.Datacenter = none → (NewConfig sampleParseDuration fullFile).1.Datacenter = "") ∧
      (NewConfig sampleParseDuration fullFile).1.JoinAddrsLAN = fullFile.JoinAddrsLAN ∧
      (NewConfig sampleParseDuration fullFile).1.NodeMeta = fullFile.NodeMeta) :=
  ⟨by decide, NewConfig_simple_values sampleParseDuration fullFile (by decide)⟩

theorem mergedFile_of_allAbsent (files : List File) (h : ∀ f ∈ files, f.AllAbsent) :
    mergedFile files = File.zero := by
  have hp : ∀ {α : Type} (g : File → Option α), (∀ f ∈ files, g f = none) →
      lastPresent (files.map g) = none := by
    intro α g hg
    rw [lastPresent_eq_none_iff]
    intro x hx
    obtain ⟨f, hf, rfl⟩ := List.mem_map.mp hx
    exact hg f hf
  have hj : (files.map fun f => elems f.JoinAddrsLAN).flatten = [] := by
    rw [List.flatten_eq_nil_iff]
    intro l hl
    obtain ⟨f, hf, rfl⟩ := List.mem_map.mp hl
    exact (h f hf).2.2.2.2.1
  have hm : lastNonEmpty (files.map fun f => f.NodeMeta) = none := by
    apply lastNonEmpty_of_all_empty
    intro m hm
    obtain ⟨f, hf, rfl⟩ := List.mem_map.mp hm
    exact (h f hf).2.2.2.2.2.1
  unfold mergedFile
  rw [hp (fun f => f.Bootstrap) (fun f hf => (h f hf).1),
    hp (fun f => f.CheckUpdateInterval) (fun f hf => (h f hf).2.1),
    hp (fun f => f.Datacenter) (fun f hf => (h f hf).2.2.1),
    hp (fun f => f.BindAddr) (fun f hf => (h f hf).2.2.2.1),
    hp (fun f => f.Ports.DNS) (fun f hf => (h f hf).2.2.2.2.2.2), hj, hm]
  rfl

/-- C12: for every list of fragments, the empty list included, in which every
field of every fragment is absent or empty, `Merge` returns and `NewConfig`
succeeds on its result, with the `Config` in which Bootstrap is false,
CheckUpdateInterval 0, Datacenter "", DNSPort 0, and BindAddrs, JoinAddrsLAN,
DNSAddrsTCP, DNSAddrsUDP and NodeMeta are all nil. -/
theorem NewConfig_Merge_all_absent (P : String → Except String Int) (files : List File)
    (h : ∀ f ∈ files, f.AllAbsent) :
    ∃ g, Merge files = .ok g ∧
      NewConfig P g = (⟨false, 0, "", none, none, 0, none, none, none⟩, none) := by
  refine ⟨mergedFile files, Merge_eq_mergedFile files, ?_⟩
  rw [mergedFile_of_allAbsent files h]
  rfl

theorem NewConfig_Merge_all_absent_witness :
    (∀ f ∈ [File.zero, emptyNonNilFile], f.AllAbsent) ∧
      ∃ g, Merge [File.zero, emptyNonNilFile] = .ok g ∧
        NewConfig sampleParseDuration g
          = (⟨false, 0, "", none, none, 0, none, none, none⟩, none) :=
  ⟨by
      intro f hf
      simp only [List.mem_cons, List.mem_singleton, List.not_mem_nil, or_false] at hf
      rcases hf with rfl | rfl <;> exact ⟨rfl, rfl, rfl, rfl, rfl, rfl, rfl⟩,
    NewConfig_Merge_all_absent sampleParseDuration [File.zero, emptyNonNilFile] (by
      intro f hf
      simp only [List.mem_cons, List.mem_singleton, List.not_mem_nil, or_false] at hf
      rcases hf with rfl | rfl <;> exact ⟨rfl, rfl, rfl, rfl, rfl, rfl, rfl⟩)⟩

/-- The empty list of fragments: `NewConfig` succeeds on `Merge` of it with
every field at its default. -/
theorem NewConfig_Merge_nil (P : String → Except String Int) :
    ∃ g, Merge [] = .ok g ∧ NewConfig P g = (Config.zero, none) :=
  ⟨File.zero, rfl, rfl⟩

/-! ## `Merge`: independence of the fields and absence of panics -/

theorem map_eq_of_forall2 {α : Type} (g : File → α) (xs ys : List File)
    (h : List.Forall₂ (fun a b => g a = g b) xs ys) : xs.map g = ys.map g := by
  induction h with
  | nil => rfl
  | cons hab _ ih => simp [hab, ih]

/-- C13: each field is merged independently. For two lists of fragments of
equal length that agree position by position on one field, `Merge` returns on
both and gives the same value for that field, whatever the other fields hold;
this holds for each of the seven fields. -/
theorem Merge_fields_independent (xs ys : List File) :
    ∃ gx gy, Merge xs = .ok gx ∧ Merge ys = .ok gy ∧
      (List.Forall₂ (fun a b => a.Bootstrap = b.Bootstrap) xs ys →
        gx.Bootstrap = gy.Bootstrap) ∧
      (List.Forall₂ (fun a b => a.CheckUpdateInterval = b.CheckUpdateInterval) xs ys →
        gx.CheckUpdateInterval = gy.CheckUpdateInterval) ∧
      (List.Forall₂ (fun a b => a.Datacenter = b.Datacenter) xs ys →
        gx.Datacenter = gy.Datacenter) ∧
      (List.Forall₂ (fun a b => a.BindAddr = b.BindAddr) xs ys →
        gx.BindAddr = gy.BindAddr) ∧
      (List.Forall₂ (fun a b => a.Ports.DNS = b.Ports.DNS) xs ys →
        gx.Ports.DNS = gy.Ports.DNS) ∧
      (List.Forall₂ (fun a b => a.JoinAddrsLAN = b.JoinAddrsLAN) xs ys →
        gx.JoinAddrsLAN = gy.JoinAddrsLAN) ∧
      (List.Forall₂ (fun a b => a.NodeMeta = b.NodeMeta) xs ys →
        gx.NodeMeta = gy.NodeMeta) := by
  refine ⟨mergedFile xs, mergedFile ys, Merge_eq_mergedFile xs, Merge_eq_mergedFile ys,
    ?_, ?_, ?_, ?_, ?_, ?_, ?_⟩
  · intro h
    show lastPresent _ = lastPresent _
    rw [map_eq_of_forall2 (fun f => f.Bootstrap) xs ys h]
  · intro h
    show lastPresent _ = lastPresent _
    rw [map_eq_of_forall2 (fun f => f.CheckUpdateInterval) xs ys h]
  · intro h
    show lastPresent _ = lastPresent _
    rw [map_eq_of_forall2 (fun f => f.Datacenter) xs ys h]
  · intro h
    show lastPresent _ = lastPresent _
    rw [map_eq_of_forall2 (fun f => f.BindAddr) xs ys h]
  · intro h
    show lastPresent _ = lastPresent _
    rw [map_eq_of_forall2 (fun f => f.Ports.DNS) xs ys h]
  · intro h
    show sliceOf _ = sliceOf _
    have e : ∀ zs : List File, (zs.map fun f => elems f.JoinAddrsLAN)
        = (zs.map fun f => f.JoinAddrsLAN).map elems := by
      intro zs; rw [List.map_map]; rfl
    rw [e xs, e ys, map_eq_of_forall2 (fun f => f.JoinAddrsLAN) xs ys h]
  · intro h
    show lastNonEmpty _ = lastNonEmpty _
    rw [map_eq_of_forall2 (fun f => f.NodeMeta) xs ys h]

/-- Two lists that agree on Datacenter at every position and differ in every
other field: the merged Datacenter is the same. -/
theorem Merge_Datacenter_independent_example :
    ∃ gx gy,
      Merge [⟨some true, some "1s", some "a", some "h", some ["x"], some [("k", "v")], ⟨some 1⟩⟩,
          ⟨none, none, none, none, none, none, ⟨none⟩⟩] = .ok gx ∧
        Merge [⟨none, none, some "a", none, none, none, ⟨none⟩⟩,
          ⟨some false, some "5m", none, some "", some ["y"], some [("c", "d")], ⟨some 2⟩⟩]
          = .ok gy ∧
        gx.Datacenter = some "a" ∧ gy.Datacenter = some "a" ∧ gx ≠ gy := by
  refine ⟨_, _, Merge_eq_mergedFile _, Merge_eq_mergedFile _, rfl, rfl, ?_⟩
  decide

theorem Merge_eq_foldlM_mergeCalls (files : List File) :
    Merge files = mergeCalls.foldlM (fun f c => merge files f c.1 c.2) File.zero := by
  simp only [Merge, mergeCalls, List.foldlM_cons, List.foldlM_nil, bind_pure]

theorem mergeLoop_ok_of_call (files : List File) (c : FieldPtr × (File → Value))
    (hc : c ∈ mergeCalls) : ∃ v, mergeLoop files c.1.ElemType c.2 = .ok v := by
  simp only [mergeCalls, List.mem_cons, List.mem_singleton, List.not_mem_nil, or_false] at hc
  rcases hc with rfl | rfl | rfl | rfl | rfl | rfl | rfl
  · exact ⟨_, mergeLoop_ptr_closed Value.ptrBool .ptrBool (fun _ => rfl) rfl (fun _ => rfl) _ _⟩
  · exact ⟨_, mergeLoop_ptr_closed Value.ptrString .ptrString (fun _ => rfl) rfl
      (fun _ => rfl) _ _⟩
  · exact ⟨_, mergeLoop_ptr_closed Value.ptrString .ptrString (fun _ => rfl) rfl
      (fun _ => rfl) _ _⟩
  · exact ⟨_, mergeLoop_ptr_closed Value.ptrString .ptrString (fun _ => rfl) rfl
      (fun _ => rfl) _ _⟩
  · exact ⟨_, mergeLoop_ptr_closed Value.ptrInt .ptrInt (fun _ => rfl) rfl (fun _ => rfl)
      (fun f => f.Ports.DNS) _⟩
  · obtain ⟨w, hw, _⟩ := mergeLoop_slice_closed files
    exact ⟨w, hw⟩
  · exact ⟨_, mergeLoop_map_closed files⟩

/-- C14: for every list of fragments `Merge` returns a fragment, so it reaches
neither of its two panics nor a panic of package `reflect`. `Merge` is the
sequence of its seven calls of `merge`, and in each call the target is a
pointer, a map or a slice, the accessor returns a value of the type of the
target on every fragment, and the loop of `merge` ends without a panic. -/
theorem Merge_never_panics (files : List File) :
    (∃ g, Merge files = .ok g) ∧
      Merge files = mergeCalls.foldlM (fun f c => merge files f c.1 c.2) File.zero ∧
      ∀ c ∈ mergeCalls,
        (c.1.ElemType.Kind = .Ptr ∨ c.1.ElemType.Kind = .Map ∨ c.1.ElemType.Kind = .Slice) ∧
        (∀ f, (c.2 f).Type = c.1.ElemType) ∧
        ∃ v, mergeLoop files c.1.ElemType c.2 = .ok v := by
  refine ⟨⟨mergedFile files, Merge_eq_mergedFile files⟩, Merge_eq_foldlM_mergeCalls files, ?_⟩
  intro c hc
  refine ⟨?_, ?_, mergeLoop_ok_of_call files c hc⟩
  · simp only [mergeCalls, List.mem_cons, List.mem_singleton, List.not_mem_nil, or_false] at hc
    rcases hc with rfl | rfl | rfl | rfl | rfl | rfl | rfl <;> decide
  · simp only [mergeCalls, List.mem_cons, List.mem_singleton, List.not_mem_nil, or_false] at hc
    rcases hc with rfl | rfl | rfl | rfl | rfl | rfl | rfl <;> intro f <;> rfl

/-- The two panics of `merge` are reached by calls other than the seven of
`Merge`: an accessor whose value has another type than the target, and a
target that is not a pointer, a map or a slice. -/
theorem mergeLoop_panics_elsewhere :
    mergeLoop [File.zero] .ptrBool (fun f => .ptrString f.Datacenter)
        = .error (.typeMismatch .ptrBool .ptrString) ∧
      mergeLoop [File.zero] .int (fun _ => .int 0) = .error (.unsupported .int) ∧
      mergeLoop [] .int (fun _ => .int 0) = .ok none := by
  refine ⟨rfl, rfl, rfl⟩

/-! ## `stringMapValue.Set` -/

theorem cutFirst_eq_none (sep : Char) (cs : List Char) (h : sep ∉ cs) :
    cutFirst sep cs = none := by
  induction cs with
  | nil => rfl
  | cons c cs ih =>
    have hc : c ≠ sep := fun e => h (by simp [e])
    have hcs : sep ∉ cs := fun e => h (List.mem_cons_of_mem _ e)
    simp [cutFirst, hc, ih hcs]

theorem cutFirst_of_mem (sep : Char) (cs : List Char) (h : sep ∈ cs) :
    ∃ a b, cutFirst sep cs = some (a, b) ∧ cs = a ++ sep :: b ∧ sep ∉ a := by
  induction cs with
  | nil => simp at h
  | cons c cs ih =>
    by_cases hc : c = sep
    · subst hc
      exact ⟨[], cs, by simp [cutFirst], rfl, by simp⟩
    · have hcs : sep ∈ cs := by
        rcases List.mem_cons.mp h with e | e
        · exact absurd e.symm hc
        · exact e
      obtain ⟨a, b, hab, hcat, hna⟩ := ih hcs
      refine ⟨c :: a, b, by simp [cutFirst, hc, hab], by simp [hcat], ?_⟩
      intro hm
      rcases List.mem_cons.mp hm with e | e
      · exact hc e.symm
      · exact hna e

theorem lookup_filter_ne (kvs : List (String × String)) (k k1 : String) (h : k1 ≠ k) :
    (kvs.filter fun e => e.1 != k).lookup k1 = kvs.lookup k1 := by
  induction kvs with
  | nil => rfl
  | cons e kvs ih =>
    obtain ⟨a, b⟩ := e
    by_cases ha : a = k
    · subst ha
      have hk : (k1 == a) = false := by simpa using h
      simp [List.filter_cons, List.lookup_cons, hk, ih]
    · have hf : (a != k) = true := by simpa using ha
      simp only [List.filter_cons, hf, if_true, List.lookup_cons, ih]

theorem nodup_keys_assign (kvs : List (String × String)) (k v : String)
    (h : (kvs.map Prod.fst).Nodup) :
    (((k, v) :: kvs.filter fun e => e.1 != k).map Prod.fst).Nodup := by
  rw [List.map_cons, List.nodup_cons]
  constructor
  · intro hm
    obtain ⟨e, he, hek⟩ := List.mem_map.mp hm
    have := (List.mem_filter.mp he).2
    simp at this
    exact this hek
  · exact List.Nodup.sublist (List.Sublist.map _ (List.filter_sublist _)) h

/-- C15: on the map installed by `newStringMapValue`, and on every non-nil map,
`Set(val)` succeeds for every string `val` and assigns one key `k` the value
`v`: when `val` holds no colon, `k` is `val` and `v` is empty; otherwise `k`
is the part of `val` before its first colon and `v` everything after that
colon. After the call `k` is mapped to `v`, every other key is mapped as
before, and the keys stay pairwise distinct. -/
theorem stringMapValue_Set_spec (kvs : List (String × String)) (val : String) :
    newStringMapValue = some [] ∧
      ∃ k v kvs1, stringMapValue.Set (some kvs) val = .ok (some kvs1) ∧
        (':' ∉ val.data → k = val ∧ v = "") ∧
        (':' ∈ val.data → ':' ∉ k.data ∧ val = k ++ ":" ++ v) ∧
        mapIndex (some kvs1) k = some v ∧
        (∀ k1, k1 ≠ k → mapIndex (some kvs1) k1 = mapIndex (some kvs) k1) ∧
        ((kvs.map Prod.fst).Nodup → (kvs1.map Prod.fst).Nodup) := by
  refine ⟨rfl, ?_⟩
  by_cases hc : ':' ∈ val.data
  · obtain ⟨a, b, hab, hcat, hna⟩ := cutFirst_of_mem ':' val.data hc
    refine ⟨⟨a⟩, ⟨b⟩, (⟨a⟩, ⟨b⟩) :: kvs.filter (fun e => e.1 != ⟨a⟩), ?_, ?_, ?_, ?_, ?_, ?_⟩
    · simp [stringMapValue.Set, SplitN2, hab, mapAssign]
    · intro h; exact absurd hc h
    · intro _
      refine ⟨hna, ?_⟩
      apply String.ext
      simp [hcat]
    · simp [mapIndex, List.lookup_cons]
    · intro k1 hk1
      have hk : (k1 == (⟨a⟩ : String)) = false := by simpa using hk1
      simp only [mapIndex, List.lookup_cons, hk]
      exact lookup_filter_ne kvs ⟨a⟩ k1 hk1
    · exact nodup_keys_assign kvs ⟨a⟩ ⟨b⟩
  · have hn := cutFirst_eq_none ':' val.data hc
    refine ⟨val, "", (val, "") :: kvs.filter (fun e => e.1 != val), ?_, ?_, ?_, ?_, ?_, ?_⟩
    · simp [stringMapValue.Set, SplitN2, hn, mapAssign]
    · intro _; exact ⟨rfl, rfl⟩
    · intro h; exact absurd h hc
    · simp [mapIndex, List.lookup_cons]
    · intro k1 hk1
      have hk : (k1 == val) = false := by simpa using hk1
      simp only [mapIndex, List.lookup_cons, hk]
      exact lookup_filter_ne kvs val k1 hk1
    · exact nodup_keys_assign kvs val ""

/-- Three calls of `Set` on the map of `newStringMapValue`: a key without
value, a value holding a colon, and a key set again. -/
theorem stringMapValue_Set_example :
    (do
      let m ← stringMapValue.Set newStringMapValue "a"
      let m ← stringMapValue.Set m "k:v:w"
      stringMapValue.Set m "a:b")
      = .ok (some [("a", "b"), ("k", "v:w")]) ∧
    stringMapValue.Set newStringMapValue "" = .ok (some [("", "")]) ∧
    stringMapValue.Set newStringMapValue ":x" = .ok (some [("", "x")]) := by
  refine ⟨rfl, rfl, rfl⟩

/-! ## `NewConfig`: when it fails -/

/-- C17: for every duration parser and every fragment, `NewConfig` returns an
error exactly when CheckUpdateInterval is present and does not parse, or the
bind address is absent while the DNS port is present; no other field takes
part. -/
theorem NewConfig_error_iff (P : String → Except String Int) (f : File) :
    (NewConfig P f).2 ≠ none ↔
      ((∃ s msg, f.CheckUpdateInterval = some s ∧ P s = .error msg) ∨
        (f.BindAddr = none ∧ f.Ports.DNS ≠ none)) := by
  have hd : (durationVal P none f.CheckUpdateInterval).2 ≠ none ↔
      ∃ s msg, f.CheckUpdateInterval = some s ∧ P s = .error msg := by
    cases hc : f.CheckUpdateInterval with
    | none => simp [durationVal]
    | some s =>
      cases hP : P s with
      | ok d => simp [durationVal_ok P s d hP, hP]
      | error msg => simp [durationVal_error P s msg hP, hP]
  rcases NewConfig_snd_cases P f with ⟨hb, hp, h⟩ | ⟨hn, h⟩
  · rw [h]
    simp [hb, hp]
  · rw [h, hd]
    constructor
    · intro h1; exact Or.inl h1
    · rintro (h1 | h1)
      · exact h1
      · exact absurd h1 hn

/-- C16: for every list of fragments without a CheckUpdateInterval, `Merge`
returns, and `NewConfig` on its result fails with the missing-bind-address
error exactly when no fragment has a bind address and some fragment has a DNS
port; in every other case it succeeds. -/
theorem NewConfig_Merge_bind_check (P : String → Except String Int) (files : List File)
    (h : ∀ f ∈ files, f.CheckUpdateInterval = none) :
    ∃ g, Merge files = .ok g ∧
      ((NewConfig P g).2 = some .noBindAddress ↔
        (∀ f ∈ files, f.BindAddr = none) ∧ ∃ f ∈ files, f.Ports.DNS ≠ none) ∧
      ((NewConfig P g).2 = none ↔
        ¬((∀ f ∈ files, f.BindAddr = none) ∧ ∃ f ∈ files, f.Ports.DNS ≠ none)) := by
  refine ⟨mergedFile files, Merge_eq_mergedFile files, ?_⟩
  have hb : (mergedFile files).BindAddr = none ↔ ∀ f ∈ files, f.BindAddr = none := by
    show lastPresent _ = none ↔ _
    rw [lastPresent_eq_none_iff]
    constructor
    · intro hx f hf
      exact hx _ (List.mem_map.mpr ⟨f, hf, rfl⟩)
    · intro hx x hm
      obtain ⟨f, hf, rfl⟩ := List.mem_map.mp hm
      exact hx f hf
  have hp : (mergedFile files).Ports.DNS ≠ none ↔ ∃ f ∈ files, f.Ports.DNS ≠ none := by
    show lastPresent _ ≠ none ↔ _
    rw [ne_eq, lastPresent_eq_none_iff]
    constructor
    · intro hx
      by_contra hne
      apply hx
      intro x hm
      obtain ⟨f, hf, rfl⟩ := List.mem_map.mp hm
      by_contra hfx
      exact hne ⟨f, hf, hfx⟩
    · rintro ⟨f, hf, hfx⟩ hx
      exact hfx (hx _ (List.mem_map.mpr ⟨f, hf, rfl⟩))
  have hc : (mergedFile files).CheckUpdateInterval = none := by
    show lastPresent _ = none
    rw [lastPresent_eq_none_iff]
    intro x hm
    obtain ⟨f, hf, rfl⟩ := List.mem_map.mp hm
    exact h f hf
  rcases NewConfig_snd_cases P (mergedFile files) with ⟨h1, h2, h3⟩ | ⟨h1, h3⟩
  · have hcond := And.intro (hb.mp h1) (hp.mp h2)
    rw [h3]
    refine ⟨⟨fun _ => hcond, fun _ => rfl⟩, ⟨fun e => (by cases e), fun e => absurd hcond e⟩⟩
  · have hcond : ¬((∀ f ∈ files, f.BindAddr = none) ∧ ∃ f ∈ files, f.Ports.DNS ≠ none) := by
      rintro ⟨a, b⟩
      exact h1 ⟨hb.mpr a, hp.mpr b⟩
    rw [h3, hc]
    simp only [durationVal_absent, reduceCtorEq, false_iff, true_iff]
    exact ⟨hcond, hcond⟩

theorem NewConfig_Merge_bind_check_witness :
    (∀ f ∈ portThenBindFiles, f.CheckUpdateInterval = none) ∧
      ∃ g, Merge portThenBindFiles = .ok g ∧
        ((NewConfig sampleParseDuration g).2 = some .noBindAddress ↔
          (∀ f ∈ portThenBindFiles, f.BindAddr = none) ∧
            ∃ f ∈ portThenBindFiles, f.Ports.DNS ≠ none) ∧
        ((NewConfig sampleParseDuration g).2 = none ↔
          ¬((∀ f ∈ portThenBindFiles, f.BindAddr = none) ∧
            ∃ f ∈ portThenBindFiles, f.Ports.DNS ≠ none)) :=
  ⟨by decide, NewConfig_Merge_bind_check sampleParseDuration portThenBindFiles (by decide)⟩

/-- A DNS port of one fragment and a bind address of another pass the bind
address check together, in either order. -/
theorem NewConfig_Merge_port_and_bind_apart :
    (∃ g, Merge portThenBindFiles = .ok g ∧
      NewConfig sampleParseDuration g
        = (⟨false, 0, "", some ["10.0.0.1"], none, 53, some ["10.0.0.1:53"],
            some ["10.0.0.1:53"], none⟩, none)) ∧
      (∃ g, Merge portThenBindFiles.reverse = .ok g ∧
        NewConfig sampleParseDuration g
          = (⟨false, 0, "", some ["10.0.0.1"], none, 53, some ["10.0.0.1:53"],
              some ["10.0.0.1:53"], none⟩, none)) := by
  refine ⟨⟨_, Merge_eq_mergedFile _, ?_⟩, ⟨_, Merge_eq_mergedFile _, ?_⟩⟩ <;> decide

/-- C20: for every fragment, the `Config` returned by `NewConfig`, with or
without an error, has equal DNSAddrsTCP and DNSAddrsUDP and at most one bind
address; its endpoint lists are as long as BindAddrs when the DNS port is
present and nil when it is absent; on success with a DNS port present each
endpoint list has exactly one element. -/
theorem NewConfig_invariants (P : String → Except String Int) (f : File) :
    (NewConfig P f).1.DNSAddrsTCP = (NewConfig P f).1.DNSAddrsUDP ∧
      (elems (NewConfig P f).1.BindAddrs).length ≤ 1 ∧
      (f.Ports.DNS ≠ none →
        (elems (NewConfig P f).1.DNSAddrsTCP).length
          = (elems (NewConfig P f).1.BindAddrs).length) ∧
      (f.Ports.DNS = none →
        (NewConfig P f).1.DNSAddrsTCP = none ∧ (NewConfig P f).1.DNSAddrsUDP = none) ∧
      ((NewConfig P f).2 = none → f.Ports.DNS ≠ none →
        (elems (NewConfig P f).1.DNSAddrsTCP).length = 1 ∧
          (elems (NewConfig P f).1.DNSAddrsUDP).length = 1) := by
  cases hb : f.BindAddr with
  | none =>
    cases hp : f.Ports.DNS with
    | none =>
      rw [NewConfig_nobind_nodns P f hb hp]
      simp [elems]
    | some p =>
      rw [NewConfig_bail P f hb (by simp [hp])]
      simp [elems, Config.zero]
  | some h =>
    cases hp : f.Ports.DNS with
    | none =>
      rw [NewConfig_bind_nodns P f h hb hp]
      simp [elems]
    | some p =>
      rw [NewConfig_bind_dns P f h p hb hp]
      simp [elems]

/-! ## `Merge`: algebraic laws -/

theorem lastPresent_pair {α : Type} (a b : Option α) :
    lastPresent [a, b] = match b with
      | some v => some v
      | none => a := by
  cases a <;> cases b <;> rfl

theorem lastPresent_single {α : Type} (a : Option α) : lastPresent [a] = a := by
  cases a <;> rfl

theorem lastPresent_cons_none {α : Type} (xs : List (Option α)) :
    lastPresent (none :: xs) = lastPresent xs := rfl

theorem lastNonEmpty_pos_or_none (ms : List StringMap) :
    lastNonEmpty ms = none ∨ 0 < mapLen (lastNonEmpty ms) := by
  rcases lastNonEmpty_cases ms with ⟨h, _⟩ | ⟨_, m, _, _, hm, _, h⟩
  · exact Or.inl h
  · right; rw [h]; exact hm

theorem lastNonEmpty_append (as bs : List StringMap) :
    lastNonEmpty (as ++ bs)
      = if mapLen (lastNonEmpty bs) > 0 then lastNonEmpty bs else lastNonEmpty as := by
  induction bs using List.reverseRecOn with
  | nil => simp [lastNonEmpty_nil, mapLen]
  | append_singleton bs m ih =>
    rw [← List.append_assoc, lastNonEmpty_concat, lastNonEmpty_concat, ih]
    by_cases hm : 0 < mapLen m
    · simp [hm]
    · simp [hm]

theorem lastNonEmpty_cons_empty (m : StringMap) (ms : List StringMap) (h : mapLen m = 0) :
    lastNonEmpty (m :: ms) = lastNonEmpty ms := by
  simp [lastNonEmpty, h]

theorem lastNonEmpty_pair (as bs : List StringMap) :
    lastNonEmpty [lastNonEmpty as, lastNonEmpty bs] = lastNonEmpty (as ++ bs) := by
  rw [lastNonEmpty_append]
  have e : lastNonEmpty [lastNonEmpty as, lastNonEmpty bs]
      = if mapLen (lastNonEmpty bs) > 0 then lastNonEmpty bs
        else if mapLen (lastNonEmpty as) > 0 then lastNonEmpty as else none := by
    simp [lastNonEmpty]
  rw [e]
  by_cases hb : 0 < mapLen (lastNonEmpty bs)
  · simp [hb]
  · rcases lastNonEmpty_pos_or_none as with ha | ha
    · simp [hb, ha]
    · simp [hb, ha]

theorem mergedFile_pair (xs ys : List File) :
    mergedFile [mergedFile xs, mergedFile ys] = mergedFile (xs ++ ys) := by
  have hp : ∀ {α : Type} (g : File → Option α),
      lastPresent [lastPresent (xs.map g), lastPresent (ys.map g)]
        = lastPresent ((xs ++ ys).map g) := by
    intro α g
    rw [List.map_append, lastPresent_append, lastPresent_pair]
  have hj : sliceOf ([elems (sliceOf (xs.map fun f => elems f.JoinAddrsLAN).flatten),
        elems (sliceOf (ys.map fun f => elems f.JoinAddrsLAN).flatten)].flatten)
      = sliceOf ((xs ++ ys).map fun f => elems f.JoinAddrsLAN).flatten := by
    simp [elems_sliceOf]
  have hm : lastNonEmpty [lastNonEmpty (xs.map fun f => f.NodeMeta),
        lastNonEmpty (ys.map fun f => f.NodeMeta)]
      = lastNonEmpty ((xs ++ ys).map fun f => f.NodeMeta) := by
    rw [List.map_append, lastNonEmpty_pair]
  show (⟨_, _, _, _, _, _, ⟨_⟩⟩ : File) = ⟨_, _, _, _, _, _, ⟨_⟩⟩
  simp only [List.map_cons, List.map_nil]
  exact congr (congr (congr (congr (congr (congr (congrArg File.mk
    (hp fun f => f.Bootstrap)) (hp fun f => f.CheckUpdateInterval))
    (hp fun f => f.Datacenter)) (hp fun f => f.BindAddr)) hj) hm)
    (congrArg FilePorts.mk (hp fun f => f.Ports.DNS))

/-- C18: `Merge` is associative over concatenation. For all lists of fragments
`xs` and `ys`, `Merge` returns on `xs`, on `ys`, on `xs ++ ys` and on the
two-element list of the first two results, and the last two results have
every field equal; they are even the same fragment, without the need to take
an absent and an empty slice or map as equal. -/
theorem Merge_append (xs ys : List File) :
    ∃ gx gy g h, Merge xs = .ok gx ∧ Merge ys = .ok gy ∧
      Merge (xs ++ ys) = .ok g ∧ Merge [gx, gy] = .ok h ∧ File.Same g h ∧ g = h := by
  refine ⟨mergedFile xs, mergedFile ys, mergedFile (xs ++ ys), mergedFile (xs ++ ys),
    Merge_eq_mergedFile xs, Merge_eq_mergedFile ys, Merge_eq_mergedFile _, ?_,
    ⟨rfl, rfl, rfl, rfl, rfl, rfl, rfl⟩, rfl⟩
  rw [Merge_eq_mergedFile, mergedFile_pair]

theorem mergedFile_single_same (f : File) : File.Same (mergedFile [f]) f := by
  refine ⟨lastPresent_single _, lastPresent_single _, lastPresent_single _,
    lastPresent_single _, ?_, ?_, lastPresent_single _⟩
  · show elems (sliceOf _) = _
    rw [elems_sliceOf]
    simp
  · show mapEntries (lastNonEmpty [f.NodeMeta]) = _
    cases hm : f.NodeMeta with
    | none => rfl
    | some kvs =>
      cases kvs with
      | nil => rfl
      | cons e kvs => simp [lastNonEmpty, mapLen]

theorem mergedFile_insert_allAbsent (pre post : List File) (z : File) (hz : z.AllAbsent) :
    mergedFile (pre ++ z :: post) = mergedFile (pre ++ post) := by
  obtain ⟨h1, h2, h3, h4, h5, h6, h7⟩ := hz
  have hp : ∀ {α : Type} (g : File → Option α), g z = none →
      lastPresent ((pre ++ z :: post).map g) = lastPresent ((pre ++ post).map g) := by
    intro α g hg
    rw [List.map_append, List.map_append, List.map_cons, hg, lastPresent_append,
      lastPresent_append, lastPresent_cons_none]
  have hj : sliceOf ((pre ++ z :: post).map fun f => elems f.JoinAddrsLAN).flatten
      = sliceOf ((pre ++ post).map fun f => elems f.JoinAddrsLAN).flatten := by
    simp [h5]
  have hm : lastNonEmpty ((pre ++ z :: post).map fun f => f.NodeMeta)
      = lastNonEmpty ((pre ++ post).map fun f => f.NodeMeta) := by
    rw [List.map_append, List.map_append, List.map_cons, lastNonEmpty_append,
      lastNonEmpty_append, lastNonEmpty_cons_empty _ _ h6]
  show (⟨_, _, _, _, _, _, ⟨_⟩⟩ : File) = ⟨_, _, _, _, _, _, ⟨_⟩⟩
  exact congr (congr (congr (congr (congr (congr (congrArg File.mk
    (hp (fun f => f.Bootstrap) h1)) (hp (fun f => f.CheckUpdateInterval) h2))
    (hp (fun f => f.Datacenter) h3)) (hp (fun f => f.BindAddr) h4)) hj) hm)
    (congrArg FilePorts.mk (hp (fun f => f.Ports.DNS) h7))

/-- C19: the all-absent fragment is an identity of `Merge`. `Merge` of the
empty list is the fragment `File{}`; `Merge` of a one-element list returns the
element, an absent and an empty slice or map taken as equal; and a fragment
whose fields are all absent or empty, inserted at or removed from any position
of a list, does not change the result of `Merge`. -/
theorem Merge_identity :
    Merge [] = .ok File.zero ∧
      (∀ f, ∃ g, Merge [f] = .ok g ∧ File.Same g f) ∧
      (∀ pre post z, File.AllAbsent z → Merge (pre ++ z :: post) = Merge (pre ++ post)) ∧
      File.AllAbsent File.zero := by
  refine ⟨rfl, ?_, ?_, ⟨rfl, rfl, rfl, rfl, rfl, rfl, rfl⟩⟩
  · intro f
    exact ⟨mergedFile [f], Merge_eq_mergedFile [f], mergedFile_single_same f⟩
  · intro pre post z hz
    rw [Merge_eq_mergedFile, Merge_eq_mergedFile, mergedFile_insert_allAbsent pre post z hz]

/-- `Merge` of a one-element list is not always the element itself: an empty,
non-nil slice or map comes back nil. -/
theorem Merge_single_emptyNonNil :
    Merge [emptyNonNilFile] = .ok File.zero ∧ emptyNonNilFile ≠ File.zero ∧
      File.Same File.zero emptyNonNilFile := by
  refine ⟨?_, by decide, ⟨rfl, rfl, rfl, rfl, rfl, rfl, rfl⟩⟩
  rw [Merge_eq_mergedFile]
  rfl

/-- The scenario of `TestMerge` without its two `File{}` fragments gives the
same result. -/
theorem Merge_testMergeFiles_without_zero :
    Merge (testMergeFiles.filter fun f => f != File.zero) = Merge testMergeFiles := by
  rw [Merge_eq_mergedFile, Merge_eq_mergedFile]
  rfl

end Consul
